import Mathlib

/-!
# rf95: decoding the modem's `AT+INFO` answer

A shallow embedding of `src/rf95/status.go`: the three regular expressions the
status decoder compiles, the per-line `switch` on the key, the loop over the
response lines and the deferred reset of the result on error, and the accessor
`Mtu` with its cache.

Go strings are modelled by their sequence of code points (`List Char`), Go's
`int` by `Int` with the 64-bit range made explicit in `Atoi`, and `float64` is
kept abstract: the decoder only moves the result of `strconv.ParseFloat` into
the record.
-/

namespace Rf95

/-- A Go string, as the list of its code points. -/
abbrev Str := List Char

/-! ## Regular expressions (the fragment of Go's `regexp` the decoder uses) -/

/-- Regular expression syntax. Repetition is only ever applied to a single
character class in the source, so `star` and `plus` take a class. -/
inductive Regex where
  | empty : Regex
  | char : Char → Regex
  | seq : Regex → Regex → Regex
  | alt : Regex → Regex → Regex
  | opt : Regex → Regex
  | star : (Char → Bool) → Regex
  | plus : (Char → Bool) → Regex
  | group : Regex → Regex
  | bot : Regex
  | eot : Regex

/-- Greedy repetition of a character class: consume as many characters as
possible, and give characters back one at a time while the continuation fails. -/
def repGreedy {R : Type} (p : Char → Bool) : Str → (Str → Option R) → Option R
  | [], k => k []
  | c :: cs, k =>
    if p c then
      match repGreedy p cs k with
      | some r => some r
      | none => k (c :: cs)
    else k (c :: cs)

/-- Backtracking matcher with Go's leftmost-first preference order. `whole` is
the text being searched (for `^`), `s` the input still to be read, `caps` the
groups captured so far; the continuation receives the remaining input. -/
def Regex.run {R : Type} (whole : Str) :
    Regex → Str → List Str → (Str → List Str → Option R) → Option R
  | .empty, s, caps, k => k s caps
  | .char c, s, caps, k =>
    match s with
    | [] => none
    | x :: xs => if x = c then k xs caps else none
  | .seq a b, s, caps, k => a.run whole s caps (fun s1 caps1 => b.run whole s1 caps1 k)
  | .alt a b, s, caps, k =>
    match a.run whole s caps k with
    | some r => some r
    | none => b.run whole s caps k
  | .opt a, s, caps, k =>
    match a.run whole s caps k with
    | some r => some r
    | none => k s caps
  | .star p, s, caps, k => repGreedy p s (fun s1 => k s1 caps)
  | .plus p, s, caps, k =>
    match s with
    | [] => none
    | x :: xs => if p x then repGreedy p xs (fun s1 => k s1 caps) else none
  | .group a, s, caps, k =>
    a.run whole s caps (fun s1 caps1 => k s1 (caps1 ++ [s.take (s.length - s1.length)]))
  | .bot, s, caps, k => if s.length = whole.length then k s caps else none
  | .eot, s, caps, k => if s = [] then k s caps else none

/-- The leftmost match: try the expression at the current offset, then at the
following ones. The result is the matched text followed by the groups. -/
def Regex.findFrom (r : Regex) (whole : Str) : Str → Option (List Str)
  | [] => r.run whole [] [] (fun s1 caps => some (([] : Str).take (0 - s1.length) :: caps))
  | c :: cs =>
    match r.run whole (c :: cs) []
        (fun s1 caps => some ((c :: cs).take ((c :: cs).length - s1.length) :: caps)) with
    | some m => some m
    | none => r.findFrom whole cs

/-- `(*Regexp).FindStringSubmatch`: the match and its groups, `nil` (here `[]`)
when there is no match. -/
def Regex.FindStringSubmatch (r : Regex) (s : Str) : List Str :=
  match r.findFrom s s with
  | some m => m
  | none => []

/-- `(*Regexp).MatchString`. -/
def Regex.MatchString (r : Regex) (s : Str) : Bool :=
  (r.findFrom s s).isSome

/-- A literal string. -/
def Regex.lit : Str → Regex
  | [] => .empty
  | c :: cs => .seq (.char c) (Regex.lit cs)

/-- Concatenation of a list of expressions. -/
def Regex.cat : List Regex → Regex
  | [] => .empty
  | r :: rs => .seq r (Regex.cat rs)

/-- `.`: any character but a line feed. -/
def clsDot (c : Char) : Bool := c != '\n'

/-- `[^\r]`: any character but a carriage return (a line feed included). -/
def clsNotCR (c : Char) : Bool := c != '\r'

/-- `[ ]`: the space. -/
def clsSpace (c : Char) : Bool := c == ' '

/-- `\d`: an ASCII digit. -/
def clsDigit (c : Char) : Bool := decide (48 ≤ c.toNat) && decide (c.toNat ≤ 57)

/-- The expression `^(\+STATUS:|\+OK|)\r?\n$`. -/
def respMsgFilter : Regex :=
  .cat [.bot,
    .group (.alt (.lit "+STATUS:".toList) (.alt (.lit "+OK".toList) .empty)),
    .opt (.char '\r'), .char '\n', .eot]

/-- The expression `^(.+):[ ]+([^\r]+)\r?\n$`. -/
def splitRegexp : Regex :=
  .cat [.bot, .group (.plus clsDot), .char ':', .plus clsSpace,
    .group (.plus clsNotCR), .opt (.char '\r'), .char '\n', .eot]

/-- The expression `^(\d+) .*`. -/
def cfgRegexp : Regex :=
  .cat [.bot, .group (.plus clsDigit), .char ' ', .star clsDot]

/-! ## Errors and the `strconv` and `strings` functions the decoder calls -/

/-- The two causes a `*strconv.NumError` can carry (`ErrSyntax`, `ErrRange`). -/
inductive NumErrKind where
  | syntaxErr
  | rangeErr
  deriving DecidableEq, Repr

/-- Error values: what the command helper hands back, an error built by
`fmt.Errorf` (its text), and a `*strconv.NumError` (function, input, cause). -/
inductive Error where
  | transport (msg : Str)
  | errorf (msg : Str)
  | numError (func : Str) (num : Str) (kind : NumErrKind)
  deriving DecidableEq, Repr

/-- Value of a run of ASCII digits read left to right from the accumulator
`acc`; `none` when a character is not a digit. -/
def parseDigits : Str → Nat → Option Nat
  | [], acc => some acc
  | c :: cs, acc =>
    if clsDigit c then parseDigits cs (acc * 10 + (c.toNat - 48)) else none

/-- `strconv.Atoi` for a 64-bit `int`: an optional sign and decimal digits. A
malformed input gives `0` and a syntax error, a value outside the `int` range
gives the nearest bound and a range error. The digits are read to the end
before the range is checked, so an input whose digits leave the 64-bit range
ahead of a character that is not a digit is given `0` and a syntax error here,
where Go stops at the overflow with the bound and a range error: the two fail
on the same inputs and agree on every success. -/
def Atoi (s : Str) : Int × Option Error :=
  let neg := decide (s.head? = some '-')
  let body := if s.head? = some '-' ∨ s.head? = some '+' then s.tail else s
  if body = [] then (0, some (.numError "Atoi".toList s .syntaxErr))
  else
    match parseDigits body 0 with
    | none => (0, some (.numError "Atoi".toList s .syntaxErr))
    | some n =>
      if neg then
        if n > 2 ^ 63 then (-(2 ^ 63), some (.numError "Atoi".toList s .rangeErr))
        else (-(n : Int), none)
      else
        if n ≥ 2 ^ 63 then (2 ^ 63 - 1, some (.numError "Atoi".toList s .rangeErr))
        else ((n : Int), none)

/-- The verb `%d` applied to an `int`. -/
def formatInt (n : Int) : Str :=
  if n < 0 then '-' :: Nat.toDigits 10 n.natAbs else Nat.toDigits 10 n.natAbs

/-- `strings.Split(s, " ")`: the pieces of `s` between its spaces. -/
def Split : Str → List Str
  | [] => [[]]
  | c :: cs =>
    if c = ' ' then [] :: Split cs
    else
      match Split cs with
      | [] => [[c]]
      | t :: ts => (c :: t) :: ts

/-- `unicode.IsSpace`. -/
def IsSpace (c : Char) : Bool :=
  let n := c.toNat
  decide (9 ≤ n ∧ n ≤ 13) || n == 32 || n == 0x85 || n == 0xA0 || n == 0x1680 ||
    decide (0x2000 ≤ n ∧ n ≤ 0x200A) || n == 0x2028 || n == 0x2029 || n == 0x202F ||
    n == 0x205F || n == 0x3000

/-- `strings.TrimSpace`: drop the white space at both ends. -/
def TrimSpace (s : Str) : Str :=
  ((s.dropWhile IsSpace).reverse.dropWhile IsSpace).reverse

/-! ## The status record and `FetchStatus` -/

/-- The record `Status`; `F` stands for `float64`. -/
structure Status (F : Type) where
  Firmware : Str
  Features : List Str
  Mode : Int
  Mtu : Int
  Frequency : F
  Bfb : Int
  RxBad : Int
  RxGood : Int
  TxGood : Int
  deriving DecidableEq

/-- What `status.go` takes from outside: the constant `maxModemMode` of the
package, the zero of `float64` and `strconv.ParseFloat(·, 64)`. -/
structure Env (F : Type) where
  maxModemMode : Int
  zeroFloat : F
  ParseFloat : Str → Except Error F

/-- The zero value `Status{}`. -/
def Status.zero {F : Type} (env : Env F) : Status F :=
  { Firmware := [], Features := [], Mode := 0, Mtu := 0, Frequency := env.zeroFloat,
    Bfb := 0, RxBad := 0, RxGood := 0, TxGood := 0 }

/-- The named results of `FetchStatus` while its body runs. -/
structure State (F : Type) where
  status : Status F
  err : Option Error
  deriving DecidableEq

/-- How the body of the loop leaves a line: on to the next line, or out of the
function through a `return`. -/
inductive Step (F : Type) where
  | next : State F → Step F
  | ret : State F → Step F
  deriving DecidableEq

/-- The outer `switch key` of the loop body. -/
def decodeField {F : Type} (env : Env F) (st : State F) (key value : Str) : Step F :=
  if key = "firmware".toList then
    .next { st with status := { st.status with Firmware := value } }
  else if key = "features".toList then
    .next { st with status := { st.status with Features := (Split value).map TrimSpace } }
  else if key = "modem config".toList then
    let cfgFields := cfgRegexp.FindStringSubmatch value
    if cfgFields.length ≠ 2 then
      .ret { st with err := some (.errorf ("failed to extract momdem config from ".toList ++ value)) }
    else
      match Atoi (cfgFields.getD 1 []) with
      | (_, some cfgModeIntErr) => .ret { st with err := some cfgModeIntErr }
      | (cfgModeInt, none) =>
        if cfgModeInt < 0 ∨ cfgModeInt > env.maxModemMode then
          .ret { st with err := some (.errorf ("modem config ".toList ++ formatInt cfgModeInt ++
            " is not in [0, ".toList ++ formatInt env.maxModemMode ++ "]".toList)) }
        else
          .next { st with status := { st.status with Mode := cfgModeInt } }
  else if key = "frequency".toList then
    match env.ParseFloat value with
    | .error freqErr => .ret { st with err := some freqErr }
    | .ok freq => .next { st with status := { st.status with Frequency := freq } }
  else if key = "max pkt size".toList ∨ key = "BFB".toList ∨ key = "rx bad".toList ∨
      key = "rx good".toList ∨ key = "tx good".toList then
    let (v, vErr) := Atoi value
    let st1 : State F :=
      match vErr with
      | some e => { st with err := some e }
      | none => st
    if key = "max pkt size".toList then
      .next { st1 with status := { st1.status with Mtu := v } }
    else if key = "BFB".toList then
      .next { st1 with status := { st1.status with Bfb := v } }
    else if key = "rx bad".toList then
      .next { st1 with status := { st1.status with RxBad := v } }
    else if key = "rx good".toList then
      .next { st1 with status := { st1.status with RxGood := v } }
    else if key = "tx good".toList then
      .next { st1 with status := { st1.status with TxGood := v } }
    else .next st1
  else if key = "rx listener".toList ∨ key = "GPS".toList then
    .next st
  else
    .ret { st with err := some (.errorf ("unknown info key value: ".toList ++ key)) }

/-- The body of `for _, respMsg := range respMsgs`. -/
def processLine {F : Type} (env : Env F) (st : State F) (respMsg : Str) : Step F :=
  if respMsgFilter.MatchString respMsg then .next st
  else
    let fields := splitRegexp.FindStringSubmatch respMsg
    if fields.length ≠ 3 then
      .ret { st with err := some (.errorf
        ("non-empty info line does not satisfy regexp: ".toList ++ respMsg)) }
    else decodeField env st (fields.getD 1 []) (fields.getD 2 [])

/-- The loop over the response lines, left early by a `return`. -/
def loop {F : Type} (env : Env F) : State F → List Str → State F
  | st, [] => st
  | st, respMsg :: rest =>
    match processLine env st respMsg with
    | .next st1 => loop env st1 rest
    | .ret st1 => st1

/-- `FetchStatus`, given what `sendCmdMultiline("AT+INFO\n", 13)` handed back.
The body runs on the named results, then the deferred function replaces the
status by `Status{}` when the error is not nil. -/
def FetchStatus {F : Type} (env : Env F) (respMsgs : List Str) (cmdErr : Option Error) :
    Status F × Option Error :=
  let st : State F :=
    match cmdErr with
    | some e => { status := Status.zero env, err := some e }
    | none => loop env { status := Status.zero env, err := none } respMsgs
  match st.err with
  | some e => (Status.zero env, some e)
  | none => (st.status, none)

/-! ## Views of the loop body used to state its properties -/

/-- The continuation `findFrom` starts the matcher with: the matched text in
front of the groups. -/
def finish (s : Str) : Str → List Str → Option (List Str) :=
  fun s1 caps => some (s.take (s.length - s1.length) :: caps)

/-- What follows the key in `splitRegexp`. -/
def sepTail : Regex :=
  .cat [.char ':', .plus clsSpace, .group (.plus clsNotCR), .opt (.char '\r'), .char '\n', .eot]

/-- What follows the separator in `splitRegexp`. -/
def valueTail : Regex :=
  .cat [.group (.plus clsNotCR), .opt (.char '\r'), .char '\n', .eot]

/-- The named results as the loop body leaves them, whichever way it leaves. -/
def Step.state {F : Type} : Step F → State F
  | .next st => st
  | .ret st => st

/-- The key and the value the loop body reads off a line: `fields[1]` and
`fields[2]`, and `none` where the body finds `len(fields) != 3`. -/
def parseLine (respMsg : Str) : Option (Str × Str) :=
  let fields := splitRegexp.FindStringSubmatch respMsg
  if fields.length ≠ 3 then none else some (fields.getD 1 [], fields.getD 2 [])

/-- The six framing lines: a marker `+STATUS:` or `+OK`, or nothing, followed
by LF or CRLF. -/
def framingLines : List Str :=
  ["+STATUS:\n".toList, "+STATUS:\r\n".toList, "+OK\n".toList, "+OK\r\n".toList,
    "\n".toList, "\r\n".toList]

/-- The five keys whose value is read by `strconv.Atoi`. -/
def intKeys : List Str :=
  ["max pkt size".toList, "BFB".toList, "rx bad".toList, "rx good".toList, "tx good".toList]

/-- The eleven keys of the `switch`. -/
def knownKeys : List Str :=
  ["firmware".toList, "features".toList, "modem config".toList, "frequency".toList,
    "max pkt size".toList, "BFB".toList, "rx bad".toList, "rx good".toList, "tx good".toList,
    "rx listener".toList, "GPS".toList]

/-- The shape `key: value` of a payload line: a non-empty key without line
feed, a colon, one or more spaces, a non-empty value without carriage return,
and LF or CRLF. -/
def IsSplit (line key sp value term : Str) : Prop :=
  line = key ++ ':' :: (sp ++ (value ++ term)) ∧
    key ≠ [] ∧ (∀ c ∈ key, clsDot c = true) ∧
    sp ≠ [] ∧ (∀ c ∈ sp, clsSpace c = true) ∧
    value ≠ [] ∧ (∀ c ∈ value, clsNotCR c = true) ∧
    (term = ['\n'] ∨ term = ['\r', '\n'])

/-- The error a `modem config` line ends the fetch with when its number `n`,
written `digits`, is beyond `maxModemMode`: the range error of the `switch`,
or the one of `strconv.Atoi` when `n` does not fit an `int`. -/
def modeRangeError (maxModemMode : Int) (digits : Str) (n : Nat) : Error :=
  if n < 2 ^ 63 then
    .errorf ("modem config ".toList ++ formatInt n ++ " is not in [0, ".toList ++
      formatInt maxModemMode ++ "]".toList)
  else .numError "Atoi".toList digits .rangeErr

/-! ## The specification's reading of the decoder -/

/-- The text in front of the first colon that is followed by a space. -/
def specKey : Str → Str
  | [] => []
  | c :: cs => if c = ':' ∧ cs.head? = some ' ' then [] else c :: specKey cs

/-- The line without its trailing LF or CRLF. -/
def stripTerminator (s : Str) : Str :=
  match s.reverse with
  | '\n' :: '\r' :: t => t.reverse
  | '\n' :: t => t.reverse
  | _ => s

/-- The line parser as the specification words it (§4.2): the key is
everything before the first colon followed by one or more spaces, the value
everything after that run of spaces, with the line terminator stripped. -/
def specSplit (line : Str) : Str × Str :=
  let key := specKey line
  (key, ((stripTerminator line).drop (key.length + 1)).dropWhile clsSpace)

/-- The decode table of the specification (§4.3): the record after a line with
this key and value, `none` where the table reports a failure. -/
def specDecode {F : Type} (env : Env F) (key value : Str) (s : Status F) : Option (Status F) :=
  if key = "firmware".toList then some { s with Firmware := value }
  else if key = "features".toList then some { s with Features := (Split value).map TrimSpace }
  else if key = "modem config".toList then
    let digits := value.takeWhile clsDigit
    if digits = [] ∨ (value.drop digits.length).head? ≠ some ' ' then none
    else
      match Atoi digits with
      | (n, none) => if 0 ≤ n ∧ n ≤ env.maxModemMode then some { s with Mode := n } else none
      | (_, some _) => none
  else if key = "frequency".toList then
    match env.ParseFloat value with
    | .ok f => some { s with Frequency := f }
    | .error _ => none
  else if key = "max pkt size".toList then
    match Atoi value with
    | (n, none) => some { s with Mtu := n }
    | (_, some _) => none
  else if key = "BFB".toList then
    match Atoi value with
    | (n, none) => some { s with Bfb := n }
    | (_, some _) => none
  else if key = "rx bad".toList then
    match Atoi value with
    | (n, none) => some { s with RxBad := n }
    | (_, some _) => none
  else if key = "rx good".toList then
    match Atoi value with
    | (n, none) => some { s with RxGood := n }
    | (_, some _) => none
  else if key = "tx good".toList then
    match Atoi value with
    | (n, none) => some { s with TxGood := n }
    | (_, some _) => none
  else if key = "rx listener".toList ∨ key = "GPS".toList then some s
  else none

/-- The assembler of the specification (§4.4): framing lines are passed over,
every other line goes through the line parser and the decode table, and the
first failure ends the run without a record. -/
def specAssemble {F : Type} (env : Env F) : List Str → Status F → Option (Status F)
  | [], s => some s
  | l :: ls, s =>
    if l ∈ framingLines then specAssemble env ls s
    else
      match parseLine l with
      | none => none
      | some (key, value) =>
        match specDecode env key value s with
        | none => none
        | some s1 => specAssemble env ls s1

/-! ## A worked example -/

/-- The response of §6 of the specification. -/
def sampleWire : List Str :=
  ["+STATUS:\n".toList, "firmware: 0.6.0\n".toList, "features: rfm95 lora\n".toList,
    "modem config: 3 Bw125Cr48Sf4096\n".toList, "frequency: 868.10\n".toList,
    "max pkt size: 255\n".toList, "BFB: 0\n".toList, "rx bad: 0\n".toList,
    "rx good: 12\n".toList, "tx good: 8\n".toList, "rx listener: 0\n".toList,
    "GPS: 0\n".toList, "+OK\n".toList]

/-- Reads `digits` or `digits.digits` as the decimal fraction `(m, e)`, for
`m / 10 ^ e`; any other text is a syntax error. -/
def parseDecimal (s : Str) : Except Error (Nat × Nat) :=
  let ip := s.takeWhile clsDigit
  match s.dropWhile clsDigit with
  | [] =>
    if ip = [] then .error (.numError "ParseFloat".toList s .syntaxErr)
    else .ok ((parseDigits ip 0).getD 0, 0)
  | c :: fp =>
    if c = '.' ∧ fp.all clsDigit = true ∧ ip ++ fp ≠ [] then
      .ok ((parseDigits (ip ++ fp) 0).getD 0, fp.length)
    else .error (.numError "ParseFloat".toList s .syntaxErr)

/-- An environment for worked examples: `maxModemMode` is 4 and decimal
fractions stand for `float64`. -/
def exampleEnv : Env (Nat × Nat) :=
  { maxModemMode := 4, zeroFloat := (0, 0), ParseFloat := parseDecimal }

/-! ## Reading the fields off a response -/

/-- The value of the last line of the response that the line parser reads with
this key, `none` when no line carries the key. -/
def lastValue (key : Str) : List Str → Option Str
  | [] => none
  | l :: ls =>
    match lastValue key ls with
    | some v => some v
    | none =>
      match parseLine l with
      | some (k, v) => if k = key then some v else none
      | none => none

/-- The record after a line with this key and value that the decode table
accepts: the field paired with the key takes the decoded value and every
other field stays. -/
def assign {F : Type} (env : Env F) (key value : Str) (s : Status F) : Status F :=
  { Firmware := if key = "firmware".toList then value else s.Firmware,
    Features := if key = "features".toList then (Split value).map TrimSpace else s.Features,
    Mode := if key = "modem config".toList then (Atoi (value.takeWhile clsDigit)).1 else s.Mode,
    Mtu := if key = "max pkt size".toList then (Atoi value).1 else s.Mtu,
    Frequency :=
      if key = "frequency".toList then
        match env.ParseFloat value with
        | .ok f => f
        | .error _ => s.Frequency
      else s.Frequency,
    Bfb := if key = "BFB".toList then (Atoi value).1 else s.Bfb,
    RxBad := if key = "rx bad".toList then (Atoi value).1 else s.RxBad,
    RxGood := if key = "rx good".toList then (Atoi value).1 else s.RxGood,
    TxGood := if key = "tx good".toList then (Atoi value).1 else s.TxGood }

/-- The line without its LF, followed by CRLF or by LF. -/
def withTerminator (crlf : Bool) (body : Str) : Str :=
  if crlf then body ++ ['\r', '\n'] else body ++ ['\n']

/-! ## The accessor `Mtu` -/

/-- Modelled from the spec: the handle `Modem`, declared outside `status.go`.
It owns the cached `mtu` (0 for "not yet fetched"); `rest` stands for
everything else the handle and the device behind it hold. -/
structure Modem (D : Type) where
  mtu : Int
  rest : D
  deriving DecidableEq

/-- What a call of `Mtu` leaves: its two results, the handle afterwards, and how
many times it invoked `updateMtu`. -/
structure MtuResult (D : Type) where
  mtu : Int
  err : Option Error
  modem : Modem D
  calls : Nat
  deriving DecidableEq

/-- The method `Mtu`. The method `updateMtu` lives outside `status.go`: it is a
parameter, taking the handle to the handle it leaves and its error. -/
def Modem.Mtu {D : Type} (updateMtu : Modem D → Modem D × Option Error) (modem : Modem D) :
    MtuResult D :=
  if modem.mtu = 0 then
    match updateMtu modem with
    | (modem1, some mtuErr) => { mtu := 0, err := some mtuErr, modem := modem1, calls := 1 }
    | (modem1, none) => { mtu := modem1.mtu, err := none, modem := modem1, calls := 1 }
  else { mtu := modem.mtu, err := none, modem := modem, calls := 0 }

/-! ## The matcher: greedy repetition, anchors, line terminator -/

theorem repGreedy_eq_none {R : Type} (p : Char → Bool) (k : Str → Option R) (s : Str) :
    repGreedy p s k = none ↔
      ∀ pre rest, s = pre ++ rest → (∀ c ∈ pre, p c = true) → k rest = none := by
  induction s with
  | nil =>
    simp only [repGreedy]
    constructor
    · intro h pre rest hs _
      have := List.append_eq_nil.mp hs.symm
      rw [this.2]; exact h
    · intro h
      exact h [] [] rfl (by simp)
  | cons c cs ih =>
    simp only [repGreedy]
    by_cases hc : p c = true
    · simp only [hc, if_true]
      constructor
      · intro h pre rest hs hp
        cases hrep : repGreedy p cs k with
        | some r => rw [hrep] at h; cases h
        | none =>
          rw [hrep] at h
          cases pre with
          | nil => simp at hs; rw [← hs]; exact h
          | cons x xs =>
            simp at hs
            exact (ih.mp hrep) xs rest hs.2 (fun c hc' => hp c (List.mem_cons_of_mem _ hc'))
      · intro h
        have h1 : repGreedy p cs k = none := by
          apply ih.mpr
          intro pre rest hs hp
          apply h (c :: pre) rest (by simp [hs])
          intro x hx
          cases List.mem_cons.mp hx with
          | inl e => rw [e]; exact hc
          | inr e => exact hp x e
        rw [h1]
        exact h [] (c :: cs) rfl (by simp)
    · simp only [hc]
      constructor
      · intro h pre rest hs hp
        cases pre with
        | nil => simp at hs; rw [← hs]; exact h
        | cons x xs =>
          simp at hs
          exact absurd (hs.1 ▸ hp x (List.mem_cons_self _ _)) hc
      · intro h
        exact h [] (c :: cs) rfl (by simp)

theorem repGreedy_eq_some {R : Type} (p : Char → Bool) (k : Str → Option R) (s : Str) (r : R) :
    repGreedy p s k = some r ↔
      ∃ pre rest, s = pre ++ rest ∧ (∀ c ∈ pre, p c = true) ∧ k rest = some r ∧
        ∀ pre1 rest1, s = pre1 ++ rest1 → (∀ c ∈ pre1, p c = true) →
          pre.length < pre1.length → k rest1 = none := by
  induction s generalizing r with
  | nil =>
    simp only [repGreedy]
    constructor
    · intro h
      refine ⟨[], [], rfl, by simp, h, ?_⟩
      intro pre1 rest1 hs _ hlt
      have := List.append_eq_nil.mp hs.symm
      rw [this.1] at hlt
      simp at hlt
    · rintro ⟨pre, rest, hs, _, hk, _⟩
      have := List.append_eq_nil.mp hs.symm
      rw [← this.2]; exact hk
  | cons c cs ih =>
    simp only [repGreedy]
    by_cases hc : p c = true
    · simp only [hc, if_true]
      cases hrep : repGreedy p cs k with
      | some r1 =>
        simp only [Option.some.injEq]
        obtain ⟨pre, rest, hs, hp, hk, hmax⟩ := (ih r1).mp hrep
        constructor
        · intro e
          subst e
          refine ⟨c :: pre, rest, by simp [hs], ?_, hk, ?_⟩
          · intro x hx
            cases List.mem_cons.mp hx with
            | inl e => rw [e]; exact hc
            | inr e => exact hp x e
          · intro pre1 rest1 hs1 hp1 hlt
            cases pre1 with
            | nil => simp at hlt
            | cons y ys =>
              simp at hs1
              exact hmax ys rest1 hs1.2 (fun x hx => hp1 x (List.mem_cons_of_mem _ hx))
                (by simpa using hlt)
        · rintro ⟨pre2, rest2, hs2, hp2, hk2, hmax2⟩
          -- both decompositions succeed; compare lengths
          rcases Nat.lt_trichotomy pre2.length (c :: pre).length with hlt | heq | hgt
          · have := hmax2 (c :: pre) rest (by simp [hs]) (by
              intro x hx
              cases List.mem_cons.mp hx with
              | inl e => rw [e]; exact hc
              | inr e => exact hp x e) hlt
            rw [hk] at this; cases this
          · have e1 : pre2 ++ rest2 = (c :: pre) ++ rest := by rw [← hs2]; simp [hs]
            have := List.append_inj e1 heq
            rw [this.2, hk] at hk2
            exact Option.some.inj hk2
          · cases pre2 with
            | nil => simp at hgt
            | cons y ys =>
              simp at hs2
              have := hmax ys rest2 hs2.2 (fun x hx => hp2 x (List.mem_cons_of_mem _ hx))
                (by simpa using hgt)
              rw [hk2] at this; cases this
      | none =>
        simp only []
        have hn := (repGreedy_eq_none p k cs).mp hrep
        constructor
        · intro h
          refine ⟨[], c :: cs, rfl, by simp, h, ?_⟩
          intro pre1 rest1 hs1 hp1 hlt
          cases pre1 with
          | nil => simp at hlt
          | cons y ys =>
            simp at hs1
            exact hn ys rest1 hs1.2 (fun x hx => hp1 x (List.mem_cons_of_mem _ hx))
        · rintro ⟨pre2, rest2, hs2, hp2, hk2, _⟩
          cases pre2 with
          | nil => simp at hs2; rw [hs2]; exact hk2
          | cons y ys =>
            simp at hs2
            have := hn ys rest2 hs2.2 (fun x hx => hp2 x (List.mem_cons_of_mem _ hx))
            rw [hk2] at this; cases this
    · simp only [hc]
      constructor
      · intro h
        refine ⟨[], c :: cs, rfl, by simp, h, ?_⟩
        intro pre1 rest1 hs1 hp1 hlt
        cases pre1 with
        | nil => simp at hlt
        | cons y ys =>
          simp at hs1
          exact absurd (hs1.1 ▸ hp1 y (List.mem_cons_self _ _)) hc
      · rintro ⟨pre2, rest2, hs2, hp2, hk2, _⟩
        cases pre2 with
        | nil => simp at hs2; rw [hs2]; exact hk2
        | cons y ys =>
          simp at hs2
          exact absurd (hs2.1 ▸ hp2 y (List.mem_cons_self _ _)) hc

theorem findFrom_bot_lt (r : Regex) (whole : Str) (s : Str) (h : s.length < whole.length) :
    (Regex.seq .bot r).findFrom whole s = none := by
  induction s with
  | nil =>
    have h0 : ¬ (0 = whole.length) := by
      simp only [List.length_nil] at h; omega
    simp [Regex.findFrom, Regex.run, h0]
  | cons c cs ih =>
    have h0 : ¬ (cs.length + 1 = whole.length) := by
      simp only [List.length_cons] at h; omega
    have h1 : cs.length < whole.length := by
      simp only [List.length_cons] at h; omega
    simp [Regex.findFrom, Regex.run, h0, ih h1]

theorem findFrom_bot (r : Regex) (s : Str) :
    (Regex.seq .bot r).findFrom s s =
      r.run s s [] (fun s1 caps => some (s.take (s.length - s1.length) :: caps)) := by
  cases s with
  | nil => simp [Regex.findFrom, Regex.run]
  | cons c cs =>
    have h := findFrom_bot_lt r (c :: cs) cs (by simp)
    simp only [Regex.findFrom, Regex.run, h, if_true]
    cases r.run (c :: cs) (c :: cs) []
      (fun s1 caps => some ((c :: cs).take ((c :: cs).length - s1.length) :: caps)) <;> rfl

/-- The line terminator `\r?\n$`. -/
theorem run_termTail {R : Type} (whole s : Str) (caps : List Str)
    (k : Str → List Str → Option R) :
    (Regex.cat [.opt (.char '\r'), .char '\n', .eot]).run whole s caps k =
      if s = ['\n'] ∨ s = ['\r', '\n'] then k [] caps else none := by
  rcases s with _ | ⟨c, _ | ⟨d, _ | ⟨e, t⟩⟩⟩
  · simp [Regex.cat, Regex.run]
  · by_cases h1 : c = '\r'
    · subst h1; simp [Regex.cat, Regex.run]
    · by_cases h2 : c = '\n'
      · subst h2; simp [Regex.cat, Regex.run]
      · simp [Regex.cat, Regex.run, h1, h2]
  · by_cases h1 : c = '\r'
    · subst h1
      by_cases h3 : d = '\n'
      · subst h3; simp [Regex.cat, Regex.run]
        cases k [] caps <;> rfl
      · simp [Regex.cat, Regex.run, h3]
    · by_cases h2 : c = '\n'
      · subst h2; simp [Regex.cat, Regex.run]
      · simp [Regex.cat, Regex.run, h1, h2]
  · by_cases h1 : c = '\r'
    · subst h1
      by_cases h3 : d = '\n'
      · subst h3; simp [Regex.cat, Regex.run]
      · simp [Regex.cat, Regex.run, h3]
    · by_cases h2 : c = '\n'
      · subst h2; simp [Regex.cat, Regex.run]
      · simp [Regex.cat, Regex.run, h1, h2]

/-! ## Greedy `+` in front of the rest of an expression -/

theorem take_length_sub (pre rest : Str) :
    (pre ++ rest).take ((pre ++ rest).length - rest.length) = pre := by
  simp

theorem plus_core {R : Type} (p : Char → Bool) (f : Str → Option R) (s : Str) (r : R) :
    (match s with
      | [] => none
      | x :: xs => if p x then repGreedy p xs f else none) = some r ↔
      ∃ pre rest, pre ≠ [] ∧ s = pre ++ rest ∧ (∀ c ∈ pre, p c = true) ∧ f rest = some r ∧
        ∀ pre1 rest1, s = pre1 ++ rest1 → (∀ c ∈ pre1, p c = true) →
          pre.length < pre1.length → f rest1 = none := by
  cases s with
  | nil =>
    simp only [false_iff, reduceCtorEq]
    rintro ⟨pre, rest, hne, hs, _⟩
    exact hne (List.append_eq_nil.mp hs.symm).1
  | cons x xs =>
    simp only
    by_cases hx : p x = true
    · simp only [hx, if_true]
      rw [repGreedy_eq_some]
      constructor
      · rintro ⟨pre, rest, hs, hp, hk, hmax⟩
        refine ⟨x :: pre, rest, by simp, by simp [hs], ?_, hk, ?_⟩
        · intro c hc
          cases List.mem_cons.mp hc with
          | inl e => rw [e]; exact hx
          | inr e => exact hp c e
        · intro pre1 rest1 hs1 hp1 hlt
          cases pre1 with
          | nil => simp at hlt
          | cons y ys =>
            simp at hs1
            exact hmax ys rest1 hs1.2 (fun c hc => hp1 c (List.mem_cons_of_mem _ hc))
              (by simpa using hlt)
      · rintro ⟨pre, rest, hne, hs, hp, hk, hmax⟩
        cases pre with
        | nil => exact absurd rfl hne
        | cons y ys =>
          simp at hs
          refine ⟨ys, rest, hs.2, fun c hc => hp c (List.mem_cons_of_mem _ hc), hk, ?_⟩
          intro pre1 rest1 hs1 hp1 hlt
          apply hmax (x :: pre1) rest1 (by simp [hs1])
          · intro c hc
            cases List.mem_cons.mp hc with
            | inl e => rw [e]; exact hx
            | inr e => exact hp1 c e
          · simpa using hlt
    · simp only [hx]
      simp only [false_iff, reduceCtorEq, Bool.false_eq_true, if_false]
      rintro ⟨pre, rest, hne, hs, hp, _⟩
      cases pre with
      | nil => exact hne rfl
      | cons y ys =>
        simp at hs
        exact hx (hs.1 ▸ hp y (List.mem_cons_self _ _))

theorem run_plus_some {R : Type} (p : Char → Bool) (T : Regex) (whole s : Str)
    (caps : List Str) (k : Str → List Str → Option R) (r : R) :
    (Regex.seq (.plus p) T).run whole s caps k = some r ↔
      ∃ pre rest, pre ≠ [] ∧ s = pre ++ rest ∧ (∀ c ∈ pre, p c = true) ∧
        T.run whole rest caps k = some r ∧
        ∀ pre1 rest1, s = pre1 ++ rest1 → (∀ c ∈ pre1, p c = true) →
          pre.length < pre1.length → T.run whole rest1 caps k = none := by
  have h := plus_core p (fun s1 => T.run whole s1 caps k) s r
  simp only [Regex.run]
  exact h

theorem run_group_plus_some {R : Type} (p : Char → Bool) (T : Regex) (whole s : Str)
    (caps : List Str) (k : Str → List Str → Option R) (r : R) :
    (Regex.seq (.group (.plus p)) T).run whole s caps k = some r ↔
      ∃ pre rest, pre ≠ [] ∧ s = pre ++ rest ∧ (∀ c ∈ pre, p c = true) ∧
        T.run whole rest (caps ++ [pre]) k = some r ∧
        ∀ pre1 rest1, s = pre1 ++ rest1 → (∀ c ∈ pre1, p c = true) →
          pre.length < pre1.length → T.run whole rest1 (caps ++ [pre1]) k = none := by
  have h := plus_core p
    (fun s1 => T.run whole s1 (caps ++ [s.take (s.length - s1.length)]) k) s r
  simp only [Regex.run]
  rw [h]
  constructor
  · rintro ⟨pre, rest, hne, hs, hp, hk, hmax⟩
    subst hs
    rw [take_length_sub] at hk
    refine ⟨pre, rest, hne, rfl, hp, hk, ?_⟩
    intro pre1 rest1 hs1 hp1 hlt
    have h2 := hmax pre1 rest1 hs1 hp1 hlt
    rw [hs1, take_length_sub] at h2
    exact h2
  · rintro ⟨pre, rest, hne, hs, hp, hk, hmax⟩
    subst hs
    refine ⟨pre, rest, hne, rfl, hp, ?_, ?_⟩
    · rw [take_length_sub]; exact hk
    · intro pre1 rest1 hs1 hp1 hlt
      rw [hs1, take_length_sub]
      exact hmax pre1 rest1 hs1 hp1 hlt

theorem plus_core_none {R : Type} (p : Char → Bool) (f : Str → Option R) (s : Str) :
    (match s with
      | [] => none
      | x :: xs => if p x then repGreedy p xs f else none) = none ↔
      ∀ pre rest, pre ≠ [] → s = pre ++ rest → (∀ c ∈ pre, p c = true) → f rest = none := by
  cases s with
  | nil =>
    simp only [true_iff]
    intro pre rest hne hs _
    exact absurd (List.append_eq_nil.mp hs.symm).1 hne
  | cons x xs =>
    simp only
    by_cases hx : p x = true
    · simp only [hx, if_true]
      rw [repGreedy_eq_none]
      constructor
      · intro h pre rest hne hs hp
        cases pre with
        | nil => exact absurd rfl hne
        | cons y ys =>
          simp at hs
          exact h ys rest hs.2 (fun c hc => hp c (List.mem_cons_of_mem _ hc))
      · intro h pre rest hs hp
        apply h (x :: pre) rest (by simp) (by simp [hs])
        intro c hc
        cases List.mem_cons.mp hc with
        | inl e => rw [e]; exact hx
        | inr e => exact hp c e
    · simp only [hx, Bool.false_eq_true, if_false, true_iff]
      intro pre rest hne hs hp
      cases pre with
      | nil => exact absurd rfl hne
      | cons y ys =>
        simp at hs
        exact absurd (hs.1 ▸ hp y (List.mem_cons_self _ _)) hx

theorem run_plus_none {R : Type} (p : Char → Bool) (T : Regex) (whole s : Str)
    (caps : List Str) (k : Str → List Str → Option R) :
    (Regex.seq (.plus p) T).run whole s caps k = none ↔
      ∀ pre rest, pre ≠ [] → s = pre ++ rest → (∀ c ∈ pre, p c = true) →
        T.run whole rest caps k = none := by
  have h := plus_core_none p (fun s1 => T.run whole s1 caps k) s
  simp only [Regex.run]
  exact h

theorem run_group_plus_none {R : Type} (p : Char → Bool) (T : Regex) (whole s : Str)
    (caps : List Str) (k : Str → List Str → Option R) :
    (Regex.seq (.group (.plus p)) T).run whole s caps k = none ↔
      ∀ pre rest, pre ≠ [] → s = pre ++ rest → (∀ c ∈ pre, p c = true) →
        T.run whole rest (caps ++ [pre]) k = none := by
  have h := plus_core_none p
    (fun s1 => T.run whole s1 (caps ++ [s.take (s.length - s1.length)]) k) s
  simp only [Regex.run]
  rw [h]
  constructor
  · intro hh pre rest hne hs hp
    have h2 := hh pre rest hne hs hp
    rw [hs, take_length_sub] at h2
    exact h2
  · intro hh pre rest hne hs hp
    rw [hs, take_length_sub]
    exact hh pre rest hne hs hp

theorem run_char_cons {R : Type} (c : Char) (T : Regex) (whole s : Str)
    (caps : List Str) (k : Str → List Str → Option R) :
    (Regex.seq (.char c) T).run whole (c :: s) caps k = T.run whole s caps k := by
  simp [Regex.run]

theorem run_char_some {R : Type} (c : Char) (T : Regex) (whole s : Str)
    (caps : List Str) (k : Str → List Str → Option R) (r : R) :
    (Regex.seq (.char c) T).run whole s caps k = some r ↔
      ∃ t, s = c :: t ∧ T.run whole t caps k = some r := by
  cases s with
  | nil => simp [Regex.run]
  | cons x xs =>
    by_cases hx : x = c
    · subst hx; simp [Regex.run]
    · simp [Regex.run, hx]

/-! ## The expression that splits a line -/

theorem run_valueTail_some {R : Type} (whole s : Str) (caps : List Str)
    (k : Str → List Str → Option R) (r : R) :
    valueTail.run whole s caps k = some r ↔
      ∃ v term, s = v ++ term ∧ v ≠ [] ∧ (∀ c ∈ v, clsNotCR c = true) ∧
        (term = ['\n'] ∨ term = ['\r', '\n']) ∧ k [] (caps ++ [v]) = some r := by
  unfold valueTail
  rw [Regex.cat, run_group_plus_some]
  constructor
  · rintro ⟨pre, rest, hne, hs, hp, hk, _⟩
    rw [run_termTail] at hk
    by_cases ht : rest = ['\n'] ∨ rest = ['\r', '\n']
    · rw [if_pos ht] at hk
      exact ⟨pre, rest, hs, hne, hp, ht, hk⟩
    · rw [if_neg ht] at hk; cases hk
  · rintro ⟨v, term, hs, hne, hp, ht, hk⟩
    refine ⟨v, term, hne, hs, hp, ?_, ?_⟩
    · rw [run_termTail, if_pos ht]; exact hk
    · intro pre1 rest1 hs1 hp1 hlt
      rw [run_termTail]
      by_cases ht1 : rest1 = ['\n'] ∨ rest1 = ['\r', '\n']
      · exfalso
        have hlen : v.length + term.length = pre1.length + rest1.length := by
          have := congrArg List.length (hs.symm.trans hs1)
          simpa using this
        rcases ht with ht | ht <;> rcases ht1 with ht1 | ht1 <;> subst ht <;> subst ht1
        · simp at hlen; omega
        · simp at hlen; omega
        · -- v ++ "\r\n" = pre1 ++ "\n": pre1 ends with a carriage return
          have e : v ++ ['\r', '\n'] = (v ++ ['\r']) ++ ['\n'] := by simp
          rw [hs, e] at hs1
          have := List.append_inj' hs1 rfl
          have hmem : '\r' ∈ pre1 := by rw [← this.1]; simp
          have := hp1 _ hmem
          simp [clsNotCR] at this
        · simp at hlen; omega
      · rw [if_neg ht1]

theorem run_valueTail_ne_none {R : Type} (whole v term : Str) (caps : List Str)
    (k : Str → List Str → Option R) (hne : v ≠ []) (hp : ∀ c ∈ v, clsNotCR c = true)
    (ht : term = ['\n'] ∨ term = ['\r', '\n']) (r : R) (hk : k [] (caps ++ [v]) = some r) :
    valueTail.run whole (v ++ term) caps k = some r :=
  (run_valueTail_some whole (v ++ term) caps k r).mpr ⟨v, term, rfl, hne, hp, ht, hk⟩

theorem run_sepTail_some {R : Type} (whole s : Str) (caps : List Str)
    (k : Str → List Str → Option R) (r : R) :
    sepTail.run whole s caps k = some r ↔
      ∃ sp rest, s = ':' :: (sp ++ rest) ∧ sp ≠ [] ∧ (∀ c ∈ sp, clsSpace c = true) ∧
        valueTail.run whole rest caps k = some r ∧
        ∀ sp1 rest1, sp ++ rest = sp1 ++ rest1 → (∀ c ∈ sp1, clsSpace c = true) →
          sp.length < sp1.length → valueTail.run whole rest1 caps k = none := by
  have e : sepTail = .seq (.char ':') (.seq (.plus clsSpace) valueTail) := rfl
  rw [e, run_char_some]
  constructor
  · rintro ⟨t, hs, ht⟩
    obtain ⟨sp, rest, hne, hst, hp, hk, hmax⟩ := (run_plus_some _ _ _ _ _ _ _).mp ht
    subst hst
    exact ⟨sp, rest, hs, hne, hp, hk, hmax⟩
  · rintro ⟨sp, rest, hs, hne, hp, hk, hmax⟩
    exact ⟨sp ++ rest, hs, (run_plus_some _ _ _ _ _ _ _).mpr ⟨sp, rest, hne, rfl, hp, hk, hmax⟩⟩

theorem run_sepTail_complete {R : Type} (whole sp v term : Str) (caps : List Str)
    (k : Str → List Str → Option R)
    (hsp : sp ≠ []) (hpsp : ∀ c ∈ sp, clsSpace c = true)
    (hne : v ≠ []) (hp : ∀ c ∈ v, clsNotCR c = true)
    (ht : term = ['\n'] ∨ term = ['\r', '\n'])
    (hk : ∀ caps1, ∃ r, k [] caps1 = some r) :
    sepTail.run whole (':' :: (sp ++ (v ++ term))) caps k ≠ none := by
  have e : sepTail = .seq (.char ':') (.seq (.plus clsSpace) valueTail) := rfl
  rw [e, run_char_cons]
  intro hnone
  have h1 := (run_plus_none _ _ _ _ _ _).mp hnone sp (v ++ term) hsp rfl hpsp
  obtain ⟨r, hr⟩ := hk (caps ++ [v])
  rw [run_valueTail_ne_none whole v term caps k hne hp ht r hr] at h1
  cases h1

theorem finish_nil (s : Str) (caps : List Str) : finish s [] caps = some (s :: caps) := by
  simp [finish]

theorem findFrom_splitRegexp (s : Str) :
    splitRegexp.findFrom s s =
      (Regex.seq (.group (.plus clsDot)) sepTail).run s s [] (finish s) := by
  have e : splitRegexp = .seq .bot (.seq (.group (.plus clsDot)) sepTail) := rfl
  rw [e, findFrom_bot]
  rfl

theorem eq_of_append_eq_of_length {α : Type} {a b c d : List α} (h : a ++ b = c ++ d)
    (hl : a.length = c.length) : a = c ∧ b = d :=
  List.append_inj h hl

/-- The line parser accepts exactly the lines of the shape `key: value`, and
its preference order picks the longest key, then the longest run of spaces. -/
theorem findFrom_splitRegexp_some (s : Str) (m : List Str) :
    splitRegexp.findFrom s s = some m ↔
      ∃ key sp value term, IsSplit s key sp value term ∧ m = [s, key, value] ∧
        ∀ key1 sp1 value1 term1, IsSplit s key1 sp1 value1 term1 →
          key1.length ≤ key.length ∧ (key1.length = key.length → sp1.length ≤ sp.length) := by
  rw [findFrom_splitRegexp]
  constructor
  · intro h
    obtain ⟨key, rest, hkne, hs, hkp, hk, hkmax⟩ := (run_group_plus_some _ _ _ _ _ _ _).mp h
    obtain ⟨sp, rest3, hrest, hspne, hspp, hv, hspmax⟩ := (run_sepTail_some _ _ _ _ _).mp hk
    obtain ⟨v, term, hr3, hvne, hvp, ht, hfin⟩ := (run_valueTail_some _ _ _ _ _).mp hv
    rw [finish_nil] at hfin
    subst hrest; subst hr3
    refine ⟨key, sp, v, term, ⟨hs, hkne, hkp, hspne, hspp, hvne, hvp, ht⟩, ?_, ?_⟩
    · simpa using hfin.symm
    · rintro key1 sp1 v1 t1 ⟨hs1, hk1ne, hk1p, hsp1ne, hsp1p, hv1ne, hv1p, ht1⟩
      have hkey : key1.length ≤ key.length := by
        by_contra hlt
        have hlt : key.length < key1.length := Nat.lt_of_not_le hlt
        have := hkmax key1 _ hs1 hk1p hlt
        exact run_sepTail_complete s sp1 v1 t1 _ (finish s) hsp1ne hsp1p hv1ne hv1p ht1
          (fun caps1 => ⟨_, finish_nil s caps1⟩) this
      refine ⟨hkey, ?_⟩
      intro hlen
      by_contra hlt
      have hlt : sp.length < sp1.length := Nat.lt_of_not_le hlt
      have e := eq_of_append_eq_of_length (hs1.symm.trans hs) hlen
      have e2 : sp ++ (v ++ term) = sp1 ++ (v1 ++ t1) := by
        have := e.2; simp at this; exact this.symm
      have hnone := hspmax sp1 (v1 ++ t1) e2 hsp1p hlt
      rw [← e.1] at hnone
      rw [run_valueTail_ne_none s v1 t1 _ (finish s) hv1ne hv1p ht1 _ (finish_nil s _)] at hnone
      cases hnone
  · rintro ⟨key, sp, v, term, ⟨hs, hkne, hkp, hspne, hspp, hvne, hvp, ht⟩, hm, hmax⟩
    subst hm
    apply (run_group_plus_some _ _ _ _ _ _ _).mpr
    refine ⟨key, _, hkne, hs, hkp, ?_, ?_⟩
    · apply (run_sepTail_some _ _ _ _ _).mpr
      refine ⟨sp, v ++ term, rfl, hspne, hspp, ?_, ?_⟩
      · exact run_valueTail_ne_none s v term _ (finish s) hvne hvp ht _ (by simp [finish_nil])
      · intro sp1 rest1 he hsp1p hlt
        cases hrun : valueTail.run s rest1 ([] ++ [key]) (finish s) with
        | none => rfl
        | some r =>
          exfalso
          obtain ⟨v1, t1, hr1, hv1ne, hv1p, ht1, _⟩ := (run_valueTail_some _ _ _ _ _).mp hrun
          subst hr1
          have hsplit : IsSplit s key sp1 v1 t1 :=
            ⟨by rw [hs, he], hkne, hkp, (by intro h0; subst h0; simp at hlt), hsp1p, hv1ne, hv1p, ht1⟩
          have := (hmax key sp1 v1 t1 hsplit).2 rfl
          omega
    · intro key1 rest1 hs1 hk1p hlt
      cases hrun : sepTail.run s rest1 ([] ++ [key1]) (finish s) with
      | none => rfl
      | some r =>
        exfalso
        obtain ⟨sp1, rest3, hrest, hsp1ne, hsp1p, hv, _⟩ := (run_sepTail_some _ _ _ _ _).mp hrun
        obtain ⟨v1, t1, hr3, hv1ne, hv1p, ht1, _⟩ := (run_valueTail_some _ _ _ _ _).mp hv
        subst hrest; subst hr3
        have hsplit : IsSplit s key1 sp1 v1 t1 :=
          ⟨hs1, (by intro h0; subst h0; simp at hlt), hk1p, hsp1ne, hsp1p, hv1ne, hv1p, ht1⟩
        have := (hmax key1 sp1 v1 t1 hsplit).1
        omega

/-! ## The framing filter -/

theorem run_alt_some_iff {R : Type} (a b : Regex) (whole s : Str) (caps : List Str)
    (k : Str → List Str → Option R) :
    (∃ r, (Regex.alt a b).run whole s caps k = some r) ↔
      (∃ r, a.run whole s caps k = some r) ∨ (∃ r, b.run whole s caps k = some r) := by
  simp only [Regex.run]
  cases a.run whole s caps k <;> simp

theorem run_lit_some {R : Type} (l : Str) (whole s : Str) (caps : List Str)
    (k : Str → List Str → Option R) (r : R) :
    (Regex.lit l).run whole s caps k = some r ↔ ∃ t, s = l ++ t ∧ k t caps = some r := by
  induction l generalizing s with
  | nil => simp [Regex.lit, Regex.run]
  | cons c cs ih =>
    rw [Regex.lit, run_char_some]
    constructor
    · rintro ⟨t, hs, ht⟩
      obtain ⟨u, hu, hk⟩ := (ih t).mp ht
      exact ⟨u, by rw [hs, hu]; rfl, hk⟩
    · rintro ⟨t, hs, hk⟩
      exact ⟨cs ++ t, by rw [hs]; rfl, (ih (cs ++ t)).mpr ⟨t, rfl, hk⟩⟩

theorem termTail_finish_some (whole t : Str) (caps : List Str) :
    (∃ r, (Regex.cat [.opt (.char '\r'), .char '\n', .eot]).run whole t caps (finish whole)
        = some r) ↔ (t = ['\n'] ∨ t = ['\r', '\n']) := by
  rw [run_termTail]
  by_cases h : t = ['\n'] ∨ t = ['\r', '\n']
  · simp [h, finish_nil]
  · simp [h]

theorem run_empty {R : Type} (whole s : Str) (caps : List Str)
    (k : Str → List Str → Option R) : Regex.empty.run whole s caps k = k s caps := rfl

theorem run_group_seq {R : Type} (a T : Regex) (whole s : Str) (caps : List Str)
    (k : Str → List Str → Option R) :
    (Regex.seq (.group a) T).run whole s caps k =
      a.run whole s caps (fun s1 caps1 =>
        T.run whole s1 (caps1 ++ [s.take (s.length - s1.length)]) k) := rfl

theorem framing_general (A B s : Str) :
    (∃ r, (Regex.seq (.group (.alt (.lit A) (.alt (.lit B) .empty)))
        (Regex.cat [.opt (.char '\r'), .char '\n', .eot])).run s s [] (finish s) = some r) ↔
      (∃ t, s = A ++ t ∧ (t = ['\n'] ∨ t = ['\r', '\n'])) ∨
      (∃ t, s = B ++ t ∧ (t = ['\n'] ∨ t = ['\r', '\n'])) ∨
      (s = ['\n'] ∨ s = ['\r', '\n']) := by
  rw [run_group_seq, run_alt_some_iff, run_alt_some_iff]
  simp only [run_lit_some, run_empty]
  constructor
  · rintro (⟨r, t, hs, hk⟩ | ⟨r, t, hs, hk⟩ | ⟨r, hk⟩)
    · exact Or.inl ⟨t, hs, (termTail_finish_some s t _).mp ⟨r, hk⟩⟩
    · exact Or.inr (Or.inl ⟨t, hs, (termTail_finish_some s t _).mp ⟨r, hk⟩⟩)
    · exact Or.inr (Or.inr ((termTail_finish_some s s _).mp ⟨r, hk⟩))
  · rintro (⟨t, hs, ht⟩ | ⟨t, hs, ht⟩ | ht)
    · obtain ⟨r, hr⟩ := (termTail_finish_some s t ([] ++ [s.take (s.length - t.length)])).mpr ht
      exact Or.inl ⟨r, t, hs, hr⟩
    · obtain ⟨r, hr⟩ := (termTail_finish_some s t ([] ++ [s.take (s.length - t.length)])).mpr ht
      exact Or.inr (Or.inl ⟨r, t, hs, hr⟩)
    · obtain ⟨r, hr⟩ := (termTail_finish_some s s ([] ++ [s.take (s.length - s.length)])).mpr ht
      exact Or.inr (Or.inr ⟨r, hr⟩)

/-- The filter `respMsgFilter` matches the six framing lines and nothing else. -/
theorem matchString_respMsgFilter (s : Str) :
    respMsgFilter.MatchString s = true ↔ s ∈ framingLines := by
  have e : respMsgFilter = .seq .bot (.seq
      (.group (.alt (.lit "+STATUS:".toList) (.alt (.lit "+OK".toList) .empty)))
      (Regex.cat [.opt (.char '\r'), .char '\n', .eot])) := rfl
  have hf : (fun s1 caps => some (List.take (s.length - s1.length) s :: caps)) = finish s := rfl
  unfold Regex.MatchString
  rw [Option.isSome_iff_exists, e, findFrom_bot, hf, framing_general]
  constructor
  · rintro (⟨t, hs, h | h⟩ | ⟨t, hs, h | h⟩ | h | h) <;> subst h <;> try subst hs
    all_goals decide
  · intro h
    simp only [framingLines, List.mem_cons, List.mem_singleton, List.not_mem_nil, or_false] at h
    rcases h with h | h | h | h | h | h <;> subst h
    · exact Or.inl ⟨['\n'], rfl, Or.inl rfl⟩
    · exact Or.inl ⟨['\r', '\n'], rfl, Or.inr rfl⟩
    · exact Or.inr (Or.inl ⟨['\n'], rfl, Or.inl rfl⟩)
    · exact Or.inr (Or.inl ⟨['\r', '\n'], rfl, Or.inr rfl⟩)
    · exact Or.inr (Or.inr (Or.inl rfl))
    · exact Or.inr (Or.inr (Or.inr rfl))

theorem findFrom_splitRegexp_none (s : Str) :
    splitRegexp.findFrom s s = none ↔ ¬ ∃ key sp value term, IsSplit s key sp value term := by
  constructor
  · rintro h ⟨key, sp, v, term, hs, hkne, hkp, hspne, hspp, hvne, hvp, ht⟩
    rw [findFrom_splitRegexp] at h
    have h1 := (run_group_plus_none _ _ _ _ _ _).mp h key _ hkne hs hkp
    exact run_sepTail_complete s sp v term _ (finish s) hspne hspp hvne hvp ht
      (fun caps1 => ⟨_, finish_nil s caps1⟩) h1
  · intro h
    cases hf : splitRegexp.findFrom s s with
    | none => rfl
    | some m =>
      obtain ⟨key, sp, v, term, hsplit, _, _⟩ := (findFrom_splitRegexp_some s m).mp hf
      exact absurd ⟨key, sp, v, term, hsplit⟩ h

/-- The line parser yields `key` and `value` exactly when the line has the shape
`key: value` and, among all ways to read the line so, this one has the longest
key and then the longest run of spaces. -/
theorem parseLine_eq_some (s key value : Str) :
    parseLine s = some (key, value) ↔
      ∃ sp term, IsSplit s key sp value term ∧
        ∀ key1 sp1 value1 term1, IsSplit s key1 sp1 value1 term1 →
          key1.length ≤ key.length ∧ (key1.length = key.length → sp1.length ≤ sp.length) := by
  unfold parseLine Regex.FindStringSubmatch
  cases hf : splitRegexp.findFrom s s with
  | none =>
    simp only [List.length_nil]
    constructor
    · intro h; simp at h
    · rintro ⟨sp, term, hsplit, _⟩
      exact absurd ⟨key, sp, value, term, hsplit⟩ ((findFrom_splitRegexp_none s).mp hf)
  | some m =>
    obtain ⟨k0, sp0, v0, t0, hsplit0, hm, hmax0⟩ := (findFrom_splitRegexp_some s m).mp hf
    subst hm
    simp only [List.length_cons, List.length_nil]
    constructor
    · intro h
      simp at h
      obtain ⟨h1, h2⟩ := h
      subst h1; subst h2
      exact ⟨sp0, t0, hsplit0, hmax0⟩
    · rintro ⟨sp, term, hsplit, hmax⟩
      have hk : key.length = k0.length :=
        Nat.le_antisymm (hmax0 key sp value term hsplit).1 (hmax k0 sp0 v0 t0 hsplit0).1
      have e1 := eq_of_append_eq_of_length (hsplit.1.symm.trans hsplit0.1) hk
      have hsp : sp.length = sp0.length :=
        Nat.le_antisymm ((hmax0 key sp value term hsplit).2 hk)
          ((hmax k0 sp0 v0 t0 hsplit0).2 hk.symm)
      have e2 : sp ++ (value ++ term) = sp0 ++ (v0 ++ t0) := by
        have := e1.2; simpa using this
      have e3 := eq_of_append_eq_of_length e2 hsp
      -- the value is fixed by what follows the separator
      have hv : value = v0 := by
        obtain ⟨_, _, _, _, _, hvne, hvp, ht⟩ := hsplit
        obtain ⟨_, _, _, _, _, hv0ne, hv0p, ht0⟩ := hsplit0
        have e4 := e3.2
        rcases ht with ht | ht <;> rcases ht0 with ht0 | ht0 <;> subst ht <;> subst ht0
        · exact (List.append_inj' e4 rfl).1
        · have e5 : value ++ ['\n'] = (v0 ++ ['\r']) ++ ['\n'] := by simpa using e4
          have := (List.append_inj' e5 rfl).1
          have hmem : '\r' ∈ value := by rw [this]; simp
          have := hvp _ hmem
          simp [clsNotCR] at this
        · have e5 : (value ++ ['\r']) ++ ['\n'] = v0 ++ ['\n'] := by simpa using e4
          have := (List.append_inj' e5 rfl).1
          have hmem : '\r' ∈ v0 := by rw [← this]; simp
          have := hv0p _ hmem
          simp [clsNotCR] at this
        · exact (List.append_inj' e4 rfl).1
      simp [e1.1, hv]

theorem parseLine_eq_none (s : Str) :
    parseLine s = none ↔ ¬ ∃ key sp value term, IsSplit s key sp value term := by
  rw [← findFrom_splitRegexp_none]
  unfold parseLine Regex.FindStringSubmatch
  cases hf : splitRegexp.findFrom s s with
  | none => simp
  | some m =>
    obtain ⟨k0, sp0, v0, t0, _, hm, _⟩ := (findFrom_splitRegexp_some s m).mp hf
    subst hm
    simp

theorem parseLine_framing (s : Str) (h : s ∈ framingLines) : parseLine s = none := by
  simp only [framingLines, List.mem_cons, List.mem_singleton, List.not_mem_nil, or_false] at h
  rcases h with h | h | h | h | h | h <;> subst h <;> rfl

theorem processLine_framing {F : Type} (env : Env F) (st : State F) (s : Str)
    (h : s ∈ framingLines) : processLine env st s = .next st := by
  unfold processLine
  rw [if_pos ((matchString_respMsgFilter s).mpr h)]

theorem matchString_of_not_framing (s : Str) (h : s ∉ framingLines) :
    respMsgFilter.MatchString s = false := by
  cases hm : respMsgFilter.MatchString s with
  | false => rfl
  | true => exact absurd ((matchString_respMsgFilter s).mp hm) h

theorem processLine_parsed {F : Type} (env : Env F) (st : State F) (s key value : Str)
    (h : parseLine s = some (key, value)) :
    processLine env st s = decodeField env st key value := by
  have hnf : s ∉ framingLines := by
    intro hf; rw [parseLine_framing s hf] at h; cases h
  unfold processLine
  rw [matchString_of_not_framing s hnf]
  unfold parseLine at h
  simp only at h
  by_cases hl : (splitRegexp.FindStringSubmatch s).length ≠ 3
  · rw [if_pos hl] at h; cases h
  · rw [if_neg hl] at h
    simp only [Option.some.injEq, Prod.mk.injEq] at h
    simp only [Bool.false_eq_true, if_false, if_neg hl, h.1, h.2]

theorem processLine_malformed {F : Type} (env : Env F) (st : State F) (s : Str)
    (hnf : s ∉ framingLines) (h : parseLine s = none) :
    processLine env st s = .ret { st with err := some (.errorf
      ("non-empty info line does not satisfy regexp: ".toList ++ s)) } := by
  unfold processLine
  rw [matchString_of_not_framing s hnf]
  unfold parseLine at h
  simp only at h
  by_cases hl : (splitRegexp.FindStringSubmatch s).length ≠ 3
  · simp only [Bool.false_eq_true, if_false, if_pos hl]
  · rw [if_neg hl] at h; cases h

/-! ## The expression for the modem configuration -/

theorem repGreedy_finish (p : Char → Bool) (whole s : Str) (caps : List Str) :
    ∃ m, repGreedy p s (fun s1 => finish whole s1 caps) = some (m :: caps) := by
  induction s with
  | nil => exact ⟨_, rfl⟩
  | cons c cs ih =>
    obtain ⟨m, hm⟩ := ih
    simp only [repGreedy]
    by_cases hc : p c = true
    · simp only [hc, if_true, hm]; exact ⟨m, rfl⟩
    · simp only [hc]; exact ⟨_, rfl⟩

/-- What follows the digits in `cfgRegexp`. -/
theorem run_cfgTail (whole s : Str) (caps : List Str) (r : List Str) :
    (Regex.cat [.char ' ', .star clsDot]).run whole s caps (finish whole) = some r →
      ∃ t m, s = ' ' :: t ∧ r = m :: caps := by
  intro h
  have e : Regex.cat [.char ' ', .star clsDot] = .seq (.char ' ') (.seq (.star clsDot) .empty) := rfl
  rw [e] at h
  obtain ⟨t, hs, ht⟩ := (run_char_some _ _ _ _ _ _ _).mp h
  simp only [Regex.run] at ht
  obtain ⟨m, hm⟩ := repGreedy_finish clsDot whole t caps
  rw [hm] at ht
  exact ⟨t, m, hs, (Option.some.inj ht).symm⟩

theorem run_cfgTail_space (whole t : Str) (caps : List Str) :
    ∃ m, (Regex.cat [.char ' ', .star clsDot]).run whole (' ' :: t) caps (finish whole)
      = some (m :: caps) := by
  have e : Regex.cat [.char ' ', .star clsDot] = .seq (.char ' ') (.seq (.star clsDot) .empty) := rfl
  rw [e, run_char_cons]
  simp only [Regex.run]
  exact repGreedy_finish clsDot whole t caps

theorem clsDigit_space : clsDigit ' ' = false := by decide

theorem findFrom_cfgRegexp (s : Str) :
    cfgRegexp.findFrom s s =
      (Regex.seq (.group (.plus clsDigit)) (Regex.cat [.char ' ', .star clsDot])).run s s []
        (finish s) := by
  have e : cfgRegexp = .seq .bot (.seq (.group (.plus clsDigit))
      (Regex.cat [.char ' ', .star clsDot])) := rfl
  rw [e, findFrom_bot]
  rfl

/-- On a value that starts with digits and a space, `cfgRegexp` captures the digits. -/
theorem cfgRegexp_digits (digits text : Str) (hne : digits ≠ [])
    (hd : ∀ c ∈ digits, clsDigit c = true) :
    ∃ m, cfgRegexp.FindStringSubmatch (digits ++ ' ' :: text) = [m, digits] := by
  obtain ⟨m, hm⟩ := run_cfgTail_space (digits ++ ' ' :: text) text ([] ++ [digits])
  refine ⟨m, ?_⟩
  unfold Regex.FindStringSubmatch
  rw [findFrom_cfgRegexp]
  have : (Regex.seq (.group (.plus clsDigit)) (Regex.cat [.char ' ', .star clsDot])).run
      (digits ++ ' ' :: text) (digits ++ ' ' :: text) [] (finish (digits ++ ' ' :: text))
      = some (m :: ([] ++ [digits])) := by
    apply (run_group_plus_some _ _ _ _ _ _ _).mpr
    refine ⟨digits, ' ' :: text, hne, rfl, hd, hm, ?_⟩
    intro pre1 rest1 hs1 hp1 hlt
    exfalso
    -- a longer run of digits would contain the space
    have hmem : ' ' ∈ pre1 := by
      have h2 : pre1 = (digits ++ ' ' :: text).take pre1.length := by
        rw [hs1]; simp
      rw [h2, List.take_append_eq_append_take]
      apply List.mem_append_right
      have hpos : 0 < pre1.length - digits.length := by omega
      cases hn : pre1.length - digits.length with
      | zero => omega
      | succ n => simp
    have := hp1 _ hmem
    rw [clsDigit_space] at this
    cases this
  rw [this]
  rfl

/-- The expression `cfgRegexp` matches only a value that starts with digits and a space. -/
theorem cfgRegexp_match (s : Str) (r : List Str)
    (h : cfgRegexp.findFrom s s = some r) :
    ∃ digits text m, s = digits ++ ' ' :: text ∧ digits ≠ [] ∧
      (∀ c ∈ digits, clsDigit c = true) ∧ r = [m, digits] := by
  rw [findFrom_cfgRegexp] at h
  obtain ⟨digits, rest, hne, hs, hd, hk, _⟩ := (run_group_plus_some _ _ _ _ _ _ _).mp h
  obtain ⟨t, m, hrest, hr⟩ := run_cfgTail _ _ _ _ hk
  subst hrest
  exact ⟨digits, t, m, hs, hne, hd, by simpa using hr⟩

theorem takeWhile_digits (digits text : Str) (hd : ∀ c ∈ digits, clsDigit c = true) :
    (digits ++ ' ' :: text).takeWhile clsDigit = digits := by
  induction digits with
  | nil => simp [List.takeWhile, clsDigit_space]
  | cons c cs ih =>
    have hc := hd c (List.mem_cons_self _ _)
    rw [List.cons_append, List.takeWhile_cons, hc, if_pos rfl,
      ih (fun x hx => hd x (List.mem_cons_of_mem _ hx))]

/-! ## The `switch` against the decode table -/

theorem value_eq_digits_space (value : Str)
    (h : ¬ (value.takeWhile clsDigit = [] ∨
      (value.drop (value.takeWhile clsDigit).length).head? ≠ some ' ')) :
    ∃ text, value = value.takeWhile clsDigit ++ ' ' :: text := by
  have h1 : (value.drop (value.takeWhile clsDigit).length).head? = some ' ' := by
    by_contra hc; exact h (Or.inr hc)
  have hp : value.takeWhile clsDigit <+: value := List.takeWhile_prefix clsDigit
  obtain ⟨t, ht⟩ := hp
  have h2 : value.drop (value.takeWhile clsDigit).length = t := by
    have h3 := congrArg (List.drop (value.takeWhile clsDigit).length) ht
    rw [List.drop_left] at h3
    exact h3.symm
  rw [h2] at h1
  cases t with
  | nil => simp at h1
  | cons c cs =>
    simp at h1
    subst h1
    exact ⟨cs, ht.symm⟩

theorem decodeField_of_spec {F : Type} (env : Env F) (s s1 : Status F) (e : Option Error)
    (key value : Str) (h : specDecode env key value s = some s1) :
    decodeField env { status := s, err := e } key value = .next { status := s1, err := e } := by
  unfold specDecode at h
  unfold decodeField
  by_cases h1 : key = "firmware".toList
  · simp only [eq_true h1, if_true] at h ⊢
    cases h; rfl
  simp only [eq_false h1, if_false] at h ⊢
  by_cases h2 : key = "features".toList
  · simp only [eq_true h2, if_true] at h ⊢
    cases h; rfl
  simp only [eq_false h2, if_false] at h ⊢
  by_cases h3 : key = "modem config".toList
  · simp only [eq_true h3, if_true] at h ⊢
    by_cases hd : value.takeWhile clsDigit = [] ∨
        (value.drop (value.takeWhile clsDigit).length).head? ≠ some ' '
    · rw [if_pos hd] at h; cases h
    · rw [if_neg hd] at h
      obtain ⟨text, hv⟩ := value_eq_digits_space value hd
      have hne : value.takeWhile clsDigit ≠ [] := fun hc => hd (Or.inl hc)
      obtain ⟨m, hm⟩ := cfgRegexp_digits (value.takeWhile clsDigit) text hne
        (fun c hc => (List.mem_takeWhile_imp hc))
      rw [← hv] at hm
      rw [hm]
      simp only [List.length_cons, List.length_nil, List.getD_cons_succ, List.getD_cons_zero]
      rcases hA : Atoi (value.takeWhile clsDigit) with ⟨n, _ | er⟩
      · simp only [hA] at h ⊢
        by_cases hr : 0 ≤ n ∧ n ≤ env.maxModemMode
        · rw [if_pos hr] at h
          have hr2 : ¬ (n < 0 ∨ n > env.maxModemMode) := by omega
          simp only [hr2, if_false]
          cases h; simp
        · rw [if_neg hr] at h; cases h
      · simp only [hA] at h
        cases h
  simp only [eq_false h3, if_false] at h ⊢
  by_cases h4 : key = "frequency".toList
  · simp only [eq_true h4, if_true] at h ⊢
    cases hf : env.ParseFloat value with
    | error er => simp only [hf] at h; cases h
    | ok f => simp only [hf] at h ⊢; cases h; rfl
  simp only [eq_false h4, if_false] at h ⊢
  by_cases h5 : key = "max pkt size".toList
  · simp only [eq_true h5, if_true, true_or] at h ⊢
    rcases hA : Atoi value with ⟨n, _ | er⟩
    · simp only [hA] at h ⊢; cases h; rfl
    · simp only [hA] at h; cases h
  simp only [eq_false h5, if_false, false_or] at h ⊢
  by_cases h6 : key = "BFB".toList
  · simp only [eq_true h6, if_true, true_or] at h ⊢
    rcases hA : Atoi value with ⟨n, _ | er⟩
    · simp only [hA] at h ⊢; cases h; rfl
    · simp only [hA] at h; cases h
  simp only [eq_false h6, if_false, false_or] at h ⊢
  by_cases h7 : key = "rx bad".toList
  · simp only [eq_true h7, if_true, true_or] at h ⊢
    rcases hA : Atoi value with ⟨n, _ | er⟩
    · simp only [hA] at h ⊢; cases h; rfl
    · simp only [hA] at h; cases h
  simp only [eq_false h7, if_false, false_or] at h ⊢
  by_cases h8 : key = "rx good".toList
  · simp only [eq_true h8, if_true, true_or] at h ⊢
    rcases hA : Atoi value with ⟨n, _ | er⟩
    · simp only [hA] at h ⊢; cases h; rfl
    · simp only [hA] at h; cases h
  simp only [eq_false h8, if_false, false_or] at h ⊢
  by_cases h9 : key = "tx good".toList
  · simp only [eq_true h9, if_true] at h ⊢
    rcases hA : Atoi value with ⟨n, _ | er⟩
    · simp only [hA] at h ⊢; cases h; rfl
    · simp only [hA] at h; cases h
  simp only [eq_false h9, if_false] at h ⊢
  by_cases h10 : key = "rx listener".toList ∨ key = "GPS".toList
  · simp only [eq_true h10, if_true] at h ⊢
    cases h; rfl
  simp only [eq_false h10, if_false] at h
  cases h

theorem cfgRegexp_no_match (value : Str)
    (h : value.takeWhile clsDigit = [] ∨
      (value.drop (value.takeWhile clsDigit).length).head? ≠ some ' ') :
    cfgRegexp.FindStringSubmatch value = [] := by
  unfold Regex.FindStringSubmatch
  cases hf : cfgRegexp.findFrom value value with
  | none => rfl
  | some r =>
    exfalso
    obtain ⟨digits, text, m, hs, hne, hd, _⟩ := cfgRegexp_match value r hf
    have ht := takeWhile_digits digits text hd
    rw [← hs] at ht
    rw [ht] at h
    rcases h with h | h
    · exact hne h
    · apply h
      conv_lhs => rw [hs]
      simp

/-- Where the decode table reports a failure, the `switch` leaves an error. -/
theorem decodeField_of_spec_none {F : Type} (env : Env F) (s : Status F) (e : Option Error)
    (key value : Str) (h : specDecode env key value s = none) :
    (decodeField env { status := s, err := e } key value).state.err ≠ none := by
  unfold specDecode at h
  unfold decodeField
  by_cases h1 : key = "firmware".toList
  · simp only [eq_true h1, if_true] at h; cases h
  simp only [eq_false h1, if_false] at h ⊢
  by_cases h2 : key = "features".toList
  · simp only [eq_true h2, if_true] at h; cases h
  simp only [eq_false h2, if_false] at h ⊢
  by_cases h3 : key = "modem config".toList
  · simp only [eq_true h3, if_true] at h ⊢
    by_cases hd : value.takeWhile clsDigit = [] ∨
        (value.drop (value.takeWhile clsDigit).length).head? ≠ some ' '
    · rw [cfgRegexp_no_match value hd]
      simp [Step.state]
    · rw [if_neg hd] at h
      obtain ⟨text, hv⟩ := value_eq_digits_space value hd
      have hne : value.takeWhile clsDigit ≠ [] := fun hc => hd (Or.inl hc)
      obtain ⟨m, hm⟩ := cfgRegexp_digits (value.takeWhile clsDigit) text hne
        (fun c hc => (List.mem_takeWhile_imp hc))
      rw [← hv] at hm
      rw [hm]
      simp only [List.length_cons, List.length_nil, List.getD_cons_succ, List.getD_cons_zero]
      rcases hA : Atoi (value.takeWhile clsDigit) with ⟨n, _ | er⟩
      · simp only [hA] at h ⊢
        by_cases hr : 0 ≤ n ∧ n ≤ env.maxModemMode
        · rw [if_pos hr] at h; cases h
        · have hr2 : n < 0 ∨ n > env.maxModemMode := by omega
          simp [hr2, Step.state]
      · simp [Step.state]
  simp only [eq_false h3, if_false] at h ⊢
  by_cases h4 : key = "frequency".toList
  · simp only [eq_true h4, if_true] at h ⊢
    cases hf : env.ParseFloat value with
    | error er => simp [Step.state]
    | ok f => simp only [hf] at h; cases h
  simp only [eq_false h4, if_false] at h ⊢
  by_cases h5 : key = "max pkt size".toList
  · simp only [eq_true h5, if_true, true_or] at h ⊢
    rcases hA : Atoi value with ⟨n, _ | er⟩
    · simp only [hA] at h; cases h
    · simp [Step.state]
  simp only [eq_false h5, if_false, false_or] at h ⊢
  by_cases h6 : key = "BFB".toList
  · simp only [eq_true h6, if_true, true_or] at h ⊢
    rcases hA : Atoi value with ⟨n, _ | er⟩
    · simp only [hA] at h; cases h
    · simp [Step.state]
  simp only [eq_false h6, if_false, false_or] at h ⊢
  by_cases h7 : key = "rx bad".toList
  · simp only [eq_true h7, if_true, true_or] at h ⊢
    rcases hA : Atoi value with ⟨n, _ | er⟩
    · simp only [hA] at h; cases h
    · simp [Step.state]
  simp only [eq_false h7, if_false, false_or] at h ⊢
  by_cases h8 : key = "rx good".toList
  · simp only [eq_true h8, if_true, true_or] at h ⊢
    rcases hA : Atoi value with ⟨n, _ | er⟩
    · simp only [hA] at h; cases h
    · simp [Step.state]
  simp only [eq_false h8, if_false, false_or] at h ⊢
  by_cases h9 : key = "tx good".toList
  · simp only [eq_true h9, if_true] at h ⊢
    rcases hA : Atoi value with ⟨n, _ | er⟩
    · simp only [hA] at h; cases h
    · simp [Step.state]
  simp only [eq_false h9, if_false] at h ⊢
  by_cases h10 : key = "rx listener".toList ∨ key = "GPS".toList
  · simp only [eq_true h10, if_true] at h; cases h
  simp only [eq_false h10, if_false, Step.state]
  simp

/-- A `return` in the `switch` always carries an error, and no branch resets one. -/
theorem decodeField_err {F : Type} (env : Env F) (st : State F) (key value : Str) :
    (∀ st1, decodeField env st key value = .ret st1 → st1.err ≠ none) ∧
    (st.err ≠ none → (decodeField env st key value).state.err ≠ none) := by
  unfold decodeField
  by_cases h1 : key = "firmware".toList
  · simp only [eq_true h1, if_true, Step.state]
    simp
  simp only [eq_false h1, if_false]
  by_cases h2 : key = "features".toList
  · simp only [eq_true h2, if_true, Step.state]
    simp
  simp only [eq_false h2, if_false]
  by_cases h3 : key = "modem config".toList
  · simp only [eq_true h3, if_true]
    by_cases hl : (cfgRegexp.FindStringSubmatch value).length ≠ 2
    · simp [hl, Step.state]
    · simp only [hl, if_false]
      rcases hA : Atoi ((cfgRegexp.FindStringSubmatch value).getD 1 []) with ⟨n, _ | er⟩
      · by_cases hr : n < 0 ∨ n > env.maxModemMode
        · simp [hr, Step.state]
        · simp [hr, Step.state]
      · simp [Step.state]
  simp only [eq_false h3, if_false]
  by_cases h4 : key = "frequency".toList
  · simp only [eq_true h4, if_true]
    cases hf : env.ParseFloat value with
    | error er => simp [Step.state]
    | ok f => simp [Step.state]
  simp only [eq_false h4, if_false]
  by_cases h5 : key = "max pkt size".toList ∨ key = "BFB".toList ∨ key = "rx bad".toList ∨
      key = "rx good".toList ∨ key = "tx good".toList
  · simp only [eq_true h5, if_true]
    rcases hA : Atoi value with ⟨n, _ | er⟩
    · simp only
      split_ifs <;> simp [Step.state]
    · simp only
      split_ifs <;> simp [Step.state]
  simp only [eq_false h5, if_false]
  by_cases h10 : key = "rx listener".toList ∨ key = "GPS".toList
  · simp only [eq_true h10, if_true, Step.state]
    simp
  simp only [eq_false h10, if_false, Step.state]
  simp

/-! ## The loop against the assembler -/

/-- A `return` in the loop body always carries an error, and the body never
resets an error. -/
theorem processLine_err {F : Type} (env : Env F) (st : State F) (l : Str) :
    (∀ st1, processLine env st l = .ret st1 → st1.err ≠ none) ∧
    (st.err ≠ none → (processLine env st l).state.err ≠ none) := by
  by_cases hf : l ∈ framingLines
  · rw [processLine_framing env st l hf]
    exact ⟨fun _ h => (by cases h), fun h => h⟩
  · cases hp : parseLine l with
    | none =>
      rw [processLine_malformed env st l hf hp]
      refine ⟨?_, ?_⟩
      · intro st1 h; cases h; simp
      · intro _; simp [Step.state]
    | some kv =>
      obtain ⟨key, value⟩ := kv
      rw [processLine_parsed env st l key value hp]
      exact decodeField_err env st key value

theorem loop_err {F : Type} (env : Env F) (lines : List Str) (st : State F)
    (h : st.err ≠ none) : (loop env st lines).err ≠ none := by
  induction lines generalizing st with
  | nil => exact h
  | cons l ls ih =>
    have hs := processLine_err env st l
    unfold loop
    cases hp : processLine env st l with
    | next st1 =>
      simp only
      apply ih
      have := hs.2 h
      rw [hp] at this
      exact this
    | ret st1 =>
      simp only
      exact hs.1 st1 hp

theorem loop_append_of_spec {F : Type} (env : Env F) (pre rest : List Str)
    (s s1 : Status F) (e : Option Error) (h : specAssemble env pre s = some s1) :
    loop env { status := s, err := e } (pre ++ rest) = loop env { status := s1, err := e } rest := by
  induction pre generalizing s with
  | nil =>
    simp only [specAssemble, Option.some.injEq] at h
    subst h; rfl
  | cons l ls ih =>
    unfold specAssemble at h
    by_cases hf : l ∈ framingLines
    · rw [if_pos hf] at h
      simp only [List.cons_append, loop, processLine_framing env _ l hf]
      exact ih s h
    · rw [if_neg hf] at h
      cases hp : parseLine l with
      | none => rw [hp] at h; cases h
      | some kv =>
        obtain ⟨key, value⟩ := kv
        rw [hp] at h
        simp only at h
        cases hd : specDecode env key value s with
        | none => rw [hd] at h; cases h
        | some s2 =>
          rw [hd] at h
          simp only at h
          simp only [List.cons_append, loop, processLine_parsed env _ l key value hp,
            decodeField_of_spec env s s2 e key value hd]
          exact ih s2 h

theorem loop_of_spec {F : Type} (env : Env F) (lines : List Str)
    (s s1 : Status F) (e : Option Error) (h : specAssemble env lines s = some s1) :
    loop env { status := s, err := e } lines = { status := s1, err := e } := by
  have := loop_append_of_spec env lines [] s s1 e h
  simpa [loop] using this

theorem loop_of_spec_none {F : Type} (env : Env F) (lines : List Str)
    (s : Status F) (e : Option Error) (h : specAssemble env lines s = none) :
    (loop env { status := s, err := e } lines).err ≠ none := by
  induction lines generalizing s with
  | nil => simp [specAssemble] at h
  | cons l ls ih =>
    unfold specAssemble at h
    by_cases hf : l ∈ framingLines
    · rw [if_pos hf] at h
      simp only [loop, processLine_framing env _ l hf]
      exact ih s h
    · rw [if_neg hf] at h
      cases hp : parseLine l with
      | none =>
        simp only [loop, processLine_malformed env _ l hf hp]
        simp
      | some kv =>
        obtain ⟨key, value⟩ := kv
        rw [hp] at h
        simp only at h
        cases hd : specDecode env key value s with
        | none =>
          have hfail := decodeField_of_spec_none env s e key value hd
          simp only [loop, processLine_parsed env _ l key value hp]
          cases hdf : decodeField env { status := s, err := e } key value with
          | next st1 =>
            simp only
            apply loop_err
            rw [hdf] at hfail
            exact hfail
          | ret st1 =>
            simp only
            rw [hdf] at hfail
            exact hfail
        | some s2 =>
          rw [hd] at h
          simp only at h
          simp only [loop, processLine_parsed env _ l key value hp,
            decodeField_of_spec env s s2 e key value hd]
          exact ih s2 h

theorem FetchStatus_of_loop {F : Type} (env : Env F) (lines : List Str) :
    FetchStatus env lines none =
      match (loop env { status := Status.zero env, err := none } lines).err with
      | some e => (Status.zero env, some e)
      | none => ((loop env { status := Status.zero env, err := none } lines).status, none) := rfl

/-- The fetch succeeds with a record exactly when the assembler of the
specification produces that record. -/
theorem FetchStatus_eq_iff_spec {F : Type} (env : Env F) (lines : List Str) (st : Status F) :
    FetchStatus env lines none = (st, none) ↔
      specAssemble env lines (Status.zero env) = some st := by
  rw [FetchStatus_of_loop]
  cases hs : specAssemble env lines (Status.zero env) with
  | none =>
    have := loop_of_spec_none env lines (Status.zero env) none hs
    cases he : (loop env { status := Status.zero env, err := none } lines).err with
    | none => exact absurd he this
    | some e => simp
  | some s1 =>
    rw [loop_of_spec env lines (Status.zero env) s1 none hs]
    simp

theorem FetchStatus_after_valid {F : Type} (env : Env F) (pre rest : List Str) (s1 : Status F)
    (h : specAssemble env pre (Status.zero env) = some s1) :
    FetchStatus env (pre ++ rest) none =
      match (loop env { status := s1, err := none } rest).err with
      | some e => (Status.zero env, some e)
      | none => ((loop env { status := s1, err := none } rest).status, none) := by
  rw [FetchStatus_of_loop, loop_append_of_spec env pre rest (Status.zero env) s1 none h]

theorem decodeField_unknown {F : Type} (env : Env F) (st : State F) (key value : Str)
    (hk : key ∉ knownKeys) :
    decodeField env st key value =
      .ret { st with err := some (.errorf ("unknown info key value: ".toList ++ key)) } := by
  have h1 : ¬ key = "firmware".toList := fun h => hk (by rw [h]; decide)
  have h2 : ¬ key = "features".toList := fun h => hk (by rw [h]; decide)
  have h3 : ¬ key = "modem config".toList := fun h => hk (by rw [h]; decide)
  have h4 : ¬ key = "frequency".toList := fun h => hk (by rw [h]; decide)
  have h5 : ¬ key = "max pkt size".toList := fun h => hk (by rw [h]; decide)
  have h6 : ¬ key = "BFB".toList := fun h => hk (by rw [h]; decide)
  have h7 : ¬ key = "rx bad".toList := fun h => hk (by rw [h]; decide)
  have h8 : ¬ key = "rx good".toList := fun h => hk (by rw [h]; decide)
  have h9 : ¬ key = "tx good".toList := fun h => hk (by rw [h]; decide)
  have h10 : ¬ key = "rx listener".toList := fun h => hk (by rw [h]; decide)
  have h11 : ¬ key = "GPS".toList := fun h => hk (by rw [h]; decide)
  unfold decodeField
  simp only [eq_false h1, eq_false h2, eq_false h3, eq_false h4, eq_false h5, eq_false h6,
    eq_false h7, eq_false h8, eq_false h9, eq_false h10, eq_false h11, if_false, or_self]

theorem specDecode_int_error {F : Type} (env : Env F) (s : Status F) (key value : Str)
    (hk : key ∈ intKeys) (hv : (Atoi value).2 ≠ none) : specDecode env key value s = none := by
  simp only [intKeys, List.mem_cons, List.mem_singleton, List.not_mem_nil, or_false] at hk
  rcases hA : Atoi value with ⟨n, _ | er⟩
  · rw [hA] at hv; exact absurd rfl hv
  · rcases hk with h | h | h | h | h <;> subst h
    · have e : specDecode env "max pkt size".toList value s =
          (match Atoi value with
            | (n, none) => some { s with Mtu := n }
            | (_, some _) => none) := rfl
      rw [e, hA]
    · have e : specDecode env "BFB".toList value s =
          (match Atoi value with
            | (n, none) => some { s with Bfb := n }
            | (_, some _) => none) := rfl
      rw [e, hA]
    · have e : specDecode env "rx bad".toList value s =
          (match Atoi value with
            | (n, none) => some { s with RxBad := n }
            | (_, some _) => none) := rfl
      rw [e, hA]
    · have e : specDecode env "rx good".toList value s =
          (match Atoi value with
            | (n, none) => some { s with RxGood := n }
            | (_, some _) => none) := rfl
      rw [e, hA]
    · have e : specDecode env "tx good".toList value s =
          (match Atoi value with
            | (n, none) => some { s with TxGood := n }
            | (_, some _) => none) := rfl
      rw [e, hA]

theorem loop_err_of_int_error {F : Type} (env : Env F) (lines : List Str) (l key value : Str)
    (hl : l ∈ lines) (hp : parseLine l = some (key, value)) (hk : key ∈ intKeys)
    (hv : (Atoi value).2 ≠ none) (st : State F) : (loop env st lines).err ≠ none := by
  induction lines generalizing st with
  | nil => cases hl
  | cons x xs ih =>
    unfold loop
    have hs := processLine_err env st x
    cases hx : processLine env st x with
    | ret st1 => exact hs.1 st1 hx
    | next st1 =>
      simp only
      rcases List.mem_cons.mp hl with h | h
      · subst h
        apply loop_err
        rw [processLine_parsed env st l key value hp] at hx
        have := decodeField_of_spec_none env st.status st.err key value
          (specDecode_int_error env st.status key value hk hv)
        rw [hx] at this
        exact this
      · exact ih h st1

/-! ## What `FetchStatus` returns -/

/-- C1: whenever `FetchStatus` returns an error, whatever the command helper
handed back (an error of its own or any list of lines), the status it returns
is the zero value `Status{}`. -/
theorem FetchStatus_error_zero {F : Type} (env : Env F) (respMsgs : List Str)
    (cmdErr : Option Error) (h : (FetchStatus env respMsgs cmdErr).2 ≠ none) :
    (FetchStatus env respMsgs cmdErr).1 = Status.zero env := by
  unfold FetchStatus at h ⊢
  cases cmdErr with
  | some e => rfl
  | none =>
    simp only at h ⊢
    cases he : (loop env { status := Status.zero env, err := none } respMsgs).err with
    | none => rw [he] at h; exact absurd rfl h
    | some e => rfl

/-- C1, at a response whose second line fails the integer conversion after the
first line wrote the firmware and before the third wrote a counter: the loop
ends with both fields written, and the fetch still returns `Status{}`. -/
theorem FetchStatus_error_zero_witness :
    (FetchStatus exampleEnv
        ["firmware: 0.6.0\n".toList, "BFB: x\n".toList, "rx bad: 3\n".toList] none).2 ≠ none ∧
      (loop exampleEnv { status := Status.zero exampleEnv, err := none }
        ["firmware: 0.6.0\n".toList, "BFB: x\n".toList, "rx bad: 3\n".toList]).status
        = { Status.zero exampleEnv with Firmware := "0.6.0".toList, RxBad := 3 } ∧
      (FetchStatus exampleEnv
        ["firmware: 0.6.0\n".toList, "BFB: x\n".toList, "rx bad: 3\n".toList] none).1
        = Status.zero exampleEnv :=
  ⟨by decide, by decide, FetchStatus_error_zero exampleEnv _ none (by decide)⟩

/-- C3 (the code departs from it): after the integer conversion of `BFB: x`
fails, the loop goes on, and the unknown key of the next line replaces the
conversion error in the result. -/
theorem FetchStatus_int_error_replaced {F : Type} (env : Env F) :
    FetchStatus env ["BFB: x\n".toList] none =
        (Status.zero env, some (.numError "Atoi".toList "x".toList .syntaxErr)) ∧
      FetchStatus env ["BFB: x\n".toList, "foo: bar\n".toList] none =
        (Status.zero env, some (.errorf "unknown info key value: foo".toList)) :=
  ⟨rfl, rfl⟩

/-- C4: if some line of the response is a `key: value` line for one of the five
integer keys whose value `strconv.Atoi` rejects, `FetchStatus` returns an
error, whatever the other lines are. -/
theorem FetchStatus_int_error_kept {F : Type} (env : Env F) (lines : List Str)
    (l key value : Str) (hl : l ∈ lines) (hp : parseLine l = some (key, value))
    (hk : key ∈ intKeys) (hv : (Atoi value).2 ≠ none) :
    (FetchStatus env lines none).2 ≠ none := by
  have h := loop_err_of_int_error env lines l key value hl hp hk hv
    { status := Status.zero env, err := none }
  rw [FetchStatus_of_loop]
  cases he : (loop env { status := Status.zero env, err := none } lines).err with
  | none => exact absurd he h
  | some e => simp

/-- C4, at a response where valid lines follow the failed conversion. -/
theorem FetchStatus_int_error_kept_witness :
    "max pkt size: 2x5\n".toList ∈
        ["+STATUS:\n".toList, "max pkt size: 2x5\n".toList, "BFB: 0\n".toList, "+OK\n".toList] ∧
      parseLine "max pkt size: 2x5\n".toList = some ("max pkt size".toList, "2x5".toList) ∧
      "max pkt size".toList ∈ intKeys ∧ (Atoi "2x5".toList).2 ≠ none ∧
      (FetchStatus exampleEnv
        ["+STATUS:\n".toList, "max pkt size: 2x5\n".toList, "BFB: 0\n".toList, "+OK\n".toList]
        none).2 ≠ none :=
  ⟨by decide, by decide, by decide, by decide,
    FetchStatus_int_error_kept exampleEnv
      ["+STATUS:\n".toList, "max pkt size: 2x5\n".toList, "BFB: 0\n".toList, "+OK\n".toList]
      "max pkt size: 2x5\n".toList "max pkt size".toList "2x5".toList
      (by decide) (by decide) (by decide) (by decide)⟩

/-- C5: when the lines before it are framing lines or decode without failure,
a `key: value` line whose key is none of the eleven keys of the `switch` makes
`FetchStatus` return `Status{}` and the unknown-key error naming that key; the
comparison is on the exact key. -/
theorem FetchStatus_unknown_key {F : Type} (env : Env F) (pre post : List Str)
    (l key value : Str) (hpre : (specAssemble env pre (Status.zero env)).isSome = true)
    (hp : parseLine l = some (key, value)) (hk : key ∉ knownKeys) :
    FetchStatus env (pre ++ l :: post) none =
      (Status.zero env, some (.errorf ("unknown info key value: ".toList ++ key))) := by
  obtain ⟨s1, hs1⟩ := Option.isSome_iff_exists.mp hpre
  rw [FetchStatus_after_valid env pre (l :: post) s1 hs1]
  simp only [loop, processLine_parsed env _ l key value hp, decodeField_unknown env _ key value hk]

/-- C5, at a key that differs from `firmware` by its capital only. -/
theorem FetchStatus_unknown_key_witness :
    (specAssemble exampleEnv ["+STATUS:\n".toList, "BFB: 0\n".toList]
        (Status.zero exampleEnv)).isSome = true ∧
      parseLine "Firmware: 0.6.0\n".toList = some ("Firmware".toList, "0.6.0".toList) ∧
      "Firmware".toList ∉ knownKeys ∧
      FetchStatus exampleEnv
        (["+STATUS:\n".toList, "BFB: 0\n".toList] ++
          "Firmware: 0.6.0\n".toList :: ["+OK\n".toList]) none =
        (Status.zero exampleEnv,
          some (.errorf ("unknown info key value: ".toList ++ "Firmware".toList))) :=
  ⟨by decide, by decide, by decide,
    FetchStatus_unknown_key exampleEnv ["+STATUS:\n".toList, "BFB: 0\n".toList]
      ["+OK\n".toList] "Firmware: 0.6.0\n".toList "Firmware".toList "0.6.0".toList
      (by decide) (by decide) (by decide)⟩

/-- C6: when the lines before it are framing lines or decode without failure,
a line that is neither a framing line nor of the shape `key: value` makes
`FetchStatus` return `Status{}` and the malformed-line error, whose text ends
with the offending line. -/
theorem FetchStatus_malformed_line {F : Type} (env : Env F) (pre post : List Str) (l : Str)
    (hpre : (specAssemble env pre (Status.zero env)).isSome = true)
    (hnf : l ∉ framingLines)
    (hshape : ¬ ∃ key sp value term, IsSplit l key sp value term) :
    FetchStatus env (pre ++ l :: post) none =
        (Status.zero env,
          some (.errorf ("non-empty info line does not satisfy regexp: ".toList ++ l))) ∧
      l <:+ "non-empty info line does not satisfy regexp: ".toList ++ l := by
  obtain ⟨s1, hs1⟩ := Option.isSome_iff_exists.mp hpre
  refine ⟨?_, List.suffix_append _ _⟩
  rw [FetchStatus_after_valid env pre (l :: post) s1 hs1]
  simp only [loop, processLine_malformed env _ l hnf ((parseLine_eq_none l).mpr hshape)]

/-- C6, at a line whose colon is not followed by a space. -/
theorem FetchStatus_malformed_line_witness :
    (specAssemble exampleEnv ["+STATUS:\n".toList] (Status.zero exampleEnv)).isSome = true ∧
      "BFB:0\n".toList ∉ framingLines ∧
      (¬ ∃ key sp value term, IsSplit "BFB:0\n".toList key sp value term) ∧
      FetchStatus exampleEnv (["+STATUS:\n".toList] ++ "BFB:0\n".toList :: ["+OK\n".toList]) none =
        (Status.zero exampleEnv,
          some (.errorf ("non-empty info line does not satisfy regexp: ".toList ++
            "BFB:0\n".toList))) :=
  ⟨by decide, by decide, (parseLine_eq_none _).mp (by decide),
    (FetchStatus_malformed_line exampleEnv _ _ _ (by decide) (by decide)
      ((parseLine_eq_none _).mp (by decide))).1⟩

/-- C8: a line is skipped as framing exactly when it is one of the six strings
`+STATUS:`, `+OK` or nothing followed by LF or CRLF; every other line goes on
to the line parser. -/
theorem framing_iff_six (l : Str) :
    framingLines.length = 6 ∧
      (respMsgFilter.MatchString l = true ↔ l ∈ framingLines) ∧
      (∀ {F : Type} (env : Env F) (st : State F),
        processLine env st l =
          if l ∈ framingLines then .next st
          else
            match parseLine l with
            | some (key, value) => decodeField env st key value
            | none => .ret { st with err := some (.errorf
                ("non-empty info line does not satisfy regexp: ".toList ++ l)) }) := by
  refine ⟨rfl, matchString_respMsgFilter l, ?_⟩
  intro F env st
  by_cases hf : l ∈ framingLines
  · rw [if_pos hf, processLine_framing env st l hf]
  · rw [if_neg hf]
    cases hp : parseLine l with
    | none => simp only; exact processLine_malformed env st l hf hp
    | some kv =>
      obtain ⟨key, value⟩ := kv
      simp only
      exact processLine_parsed env st l key value hp

/-! ## The sample response -/

theorem specAssemble_append {F : Type} (env : Env F) (a b : List Str) (s : Status F) :
    specAssemble env (a ++ b) s = (specAssemble env a s).bind (fun s1 => specAssemble env b s1) := by
  induction a generalizing s with
  | nil => rfl
  | cons l ls ih =>
    simp only [List.cons_append, specAssemble]
    by_cases hf : l ∈ framingLines
    · simp only [if_pos hf]; exact ih s
    · simp only [if_neg hf]
      cases parseLine l with
      | none => rfl
      | some kv =>
        obtain ⟨key, value⟩ := kv
        simp only
        cases specDecode env key value s with
        | none => rfl
        | some s2 => simp only; exact ih s2

theorem sampleWire_split :
    sampleWire = ["+STATUS:\n".toList, "firmware: 0.6.0\n".toList, "features: rfm95 lora\n".toList]
      ++ (["modem config: 3 Bw125Cr48Sf4096\n".toList] ++ (["frequency: 868.10\n".toList] ++
        ["max pkt size: 255\n".toList, "BFB: 0\n".toList, "rx bad: 0\n".toList,
          "rx good: 12\n".toList, "tx good: 8\n".toList, "rx listener: 0\n".toList,
          "GPS: 0\n".toList, "+OK\n".toList])) := rfl

theorem sample_head {F : Type} (env : Env F) (s : Status F) :
    specAssemble env
      ["+STATUS:\n".toList, "firmware: 0.6.0\n".toList, "features: rfm95 lora\n".toList] s =
      some { s with Firmware := "0.6.0".toList, Features := ["rfm95".toList, "lora".toList] } :=
  rfl

theorem sample_mode {F : Type} (env : Env F) (s : Status F) (h : 3 ≤ env.maxModemMode) :
    specAssemble env ["modem config: 3 Bw125Cr48Sf4096\n".toList] s = some { s with Mode := 3 } := by
  have e : specDecode env "modem config".toList "3 Bw125Cr48Sf4096".toList s =
      if (0 : Int) ≤ 3 ∧ (3 : Int) ≤ env.maxModemMode then some { s with Mode := 3 } else none :=
    rfl
  show (match specDecode env "modem config".toList "3 Bw125Cr48Sf4096".toList s with
    | none => none
    | some s1 => some s1) = _
  rw [e, if_pos ⟨by decide, h⟩]

theorem sample_frequency {F : Type} (env : Env F) (s : Status F) (f : F)
    (h : env.ParseFloat "868.10".toList = .ok f) :
    specAssemble env ["frequency: 868.10\n".toList] s = some { s with Frequency := f } := by
  have e : specDecode env "frequency".toList "868.10".toList s =
      match env.ParseFloat "868.10".toList with
      | .ok f => some { s with Frequency := f }
      | .error _ => none := rfl
  show (match specDecode env "frequency".toList "868.10".toList s with
    | none => none
    | some s1 => some s1) = _
  rw [e, h]

theorem sample_tail {F : Type} (env : Env F) (s : Status F) :
    specAssemble env ["max pkt size: 255\n".toList, "BFB: 0\n".toList, "rx bad: 0\n".toList,
          "rx good: 12\n".toList, "tx good: 8\n".toList, "rx listener: 0\n".toList,
          "GPS: 0\n".toList, "+OK\n".toList] s =
      some { s with Mtu := 255, Bfb := 0, RxBad := 0, RxGood := 12, TxGood := 8 } :=
  rfl

theorem sample_assembled {F : Type} (env : Env F) (f : F) (hm : 3 ≤ env.maxModemMode)
    (hf : env.ParseFloat "868.10".toList = .ok f) :
    specAssemble env sampleWire (Status.zero env) =
      some { Firmware := "0.6.0".toList, Features := ["rfm95".toList, "lora".toList], Mode := 3,
             Mtu := 255, Frequency := f, Bfb := 0, RxBad := 0, RxGood := 12, TxGood := 8 } := by
  rw [sampleWire_split, specAssemble_append, sample_head, Option.some_bind,
    specAssemble_append, sample_mode env _ hm, Option.some_bind,
    specAssemble_append, sample_frequency env _ f hf, Option.some_bind, sample_tail]

/-- C2: on a response made of framing lines and of `key: value` lines that the
decode table of the specification accepts, `FetchStatus` returns no error and
the record the table builds; so the response of §6 yields the record given
there as soon as `maxModemMode` is at least 3, with the `float64` that
`strconv.ParseFloat` reads from `868.10`. -/
theorem FetchStatus_wellFormed {F : Type} (env : Env F) :
    (∀ lines st, specAssemble env lines (Status.zero env) = some st →
        FetchStatus env lines none = (st, none)) ∧
      (∀ f, 3 ≤ env.maxModemMode → env.ParseFloat "868.10".toList = .ok f →
        FetchStatus env sampleWire none =
          ({ Firmware := "0.6.0".toList, Features := ["rfm95".toList, "lora".toList], Mode := 3,
             Mtu := 255, Frequency := f, Bfb := 0, RxBad := 0, RxGood := 12, TxGood := 8 },
            none)) := by
  refine ⟨fun lines st h => (FetchStatus_eq_iff_spec env lines st).mpr h, ?_⟩
  intro f hm hf
  exact (FetchStatus_eq_iff_spec env sampleWire _).mpr (sample_assembled env f hm hf)

/-- C2, in the example environment, where `868.10` reads as 86810 / 10 ^ 2. -/
theorem FetchStatus_wellFormed_witness :
    (3 : Int) ≤ exampleEnv.maxModemMode ∧
      exampleEnv.ParseFloat "868.10".toList = .ok (86810, 2) ∧
      specAssemble exampleEnv sampleWire (Status.zero exampleEnv) =
        some { Firmware := "0.6.0".toList, Features := ["rfm95".toList, "lora".toList],
               Mode := 3, Mtu := 255, Frequency := (86810, 2), Bfb := 0, RxBad := 0,
               RxGood := 12, TxGood := 8 } ∧
      FetchStatus exampleEnv sampleWire none =
        ({ Firmware := "0.6.0".toList, Features := ["rfm95".toList, "lora".toList], Mode := 3,
           Mtu := 255, Frequency := (86810, 2), Bfb := 0, RxBad := 0, RxGood := 12,
           TxGood := 8 }, none) :=
  ⟨by decide, rfl, by decide,
    (FetchStatus_wellFormed exampleEnv).2 (86810, 2) (by decide) rfl⟩

/-! ## The line parser -/

/-- C7 as stated fails on `a: b: c`: the specification's reading puts the key
before the first colon-and-space, the line parser puts it before the last. -/
theorem parseLine_first_separator_counterexample :
    respMsgFilter.MatchString "a: b: c\n".toList = false ∧
      specSplit "a: b: c\n".toList = ("a".toList, "b: c".toList) ∧
      parseLine "a: b: c\n".toList = some ("a: b".toList, "c".toList) := by
  decide

/-- C7 amended: a line the line parser accepts is not a framing line and reads
`key`, a colon, one or more spaces, `value`, LF or CRLF, with a non-empty key
free of LF and a non-empty value free of CR; among all such readings of the
line the parser takes the one with the longest key, and for that key the
longest run of spaces. -/
theorem parseLine_longest_key (line key value : Str)
    (h : parseLine line = some (key, value)) :
    line ∉ framingLines ∧
      ∃ sp term, IsSplit line key sp value term ∧
        ∀ key1 sp1 value1 term1, IsSplit line key1 sp1 value1 term1 →
          key1.length ≤ key.length ∧ (key1.length = key.length → sp1.length ≤ sp.length) := by
  refine ⟨?_, (parseLine_eq_some line key value).mp h⟩
  intro hf
  rw [parseLine_framing line hf] at h
  cases h

/-- C7 amended, at `a: b: c`. -/
theorem parseLine_longest_key_witness :
    parseLine "a: b: c\n".toList = some ("a: b".toList, "c".toList) ∧
      "a: b: c\n".toList ∉ framingLines ∧
      ∃ sp term, IsSplit "a: b: c\n".toList "a: b".toList sp "c".toList term ∧
        ∀ key1 sp1 value1 term1, IsSplit "a: b: c\n".toList key1 sp1 value1 term1 →
          key1.length ≤ "a: b".toList.length ∧
            (key1.length = "a: b".toList.length → sp1.length ≤ sp.length) :=
  ⟨by decide, parseLine_longest_key "a: b: c\n".toList "a: b".toList "c".toList (by decide)⟩

/-! ## The `features` and `modem config` lines -/

theorem Split_ne_nil (v : Str) : Split v ≠ [] := by
  cases v with
  | nil => simp [Split]
  | cons c cs =>
    unfold Split
    by_cases hc : c = ' '
    · simp [hc]
    · simp only [hc, if_false]
      cases Split cs <;> simp

theorem Split_length (v : Str) : (Split v).length = v.count ' ' + 1 := by
  induction v with
  | nil => rfl
  | cons c cs ih =>
    unfold Split
    by_cases hc : c = ' '
    · subst hc
      simp [ih]
    · simp only [hc, if_false]
      have hc2 : ¬ (c == ' ') = true := by simpa using hc
      rw [List.count_cons, if_neg hc2, ← ih]
      cases hs : Split cs with
      | nil => exact absurd hs (Split_ne_nil cs)
      | cons t ts => simp

theorem Split_eq_splitOn (v : Str) : Split v = v.splitOn ' ' := by
  unfold List.splitOn
  induction v with
  | nil => rfl
  | cons c cs ih =>
    rw [List.splitOnP_cons, Split, ← ih]
    by_cases hc : c = ' '
    · subst hc; simp
    · have hc2 : (c == ' ') = false := by simpa using hc
      simp only [hc, if_false, hc2, Bool.false_eq_true]
      cases hs : Split cs with
      | nil => exact absurd hs (Split_ne_nil cs)
      | cons t ts => rfl

theorem Split_intercalate (v : Str) : [' '].intercalate (Split v) = v := by
  rw [Split_eq_splitOn]
  exact List.intercalate_splitOn v ' '

theorem Split_no_space (v : Str) : ∀ t ∈ Split v, ' ' ∉ t := by
  induction v with
  | nil => simp [Split]
  | cons c cs ih =>
    unfold Split
    by_cases hc : c = ' '
    · subst hc
      simp only [if_true]
      intro t ht
      rcases List.mem_cons.mp ht with h | h
      · subst h; simp
      · exact ih t h
    · simp only [hc, if_false]
      cases hs : Split cs with
      | nil => exact absurd hs (Split_ne_nil cs)
      | cons u us =>
        rw [hs] at ih
        intro t ht
        rcases List.mem_cons.mp ht with h | h
        · subst h
          intro hmem
          rcases List.mem_cons.mp hmem with h1 | h1
          · exact hc h1.symm
          · exact ih u (List.mem_cons_self _ _) h1
        · exact ih t (List.mem_cons_of_mem _ h)

theorem decodeField_features {F : Type} (env : Env F) (st : State F) (v : Str) :
    decodeField env st "features".toList v =
      .next { st with status := { st.status with Features := (Split v).map TrimSpace } } := rfl

/-- C10: a `features` line with value `v` sets `Features` to the pieces of `v`
between its spaces, each trimmed of surrounding white space, in the order of
`v` and without dropping any, and never fails: the pieces are those of the
library's `splitOn`, they hold no space, joined by single spaces they give `v`
back, and there is one more of them than `v` has spaces; `rfm95 lora` gives
the list `rfm95`, `lora`. -/
theorem features_line {F : Type} (env : Env F) (st : State F) (l v : Str)
    (hp : parseLine l = some ("features".toList, v)) :
    processLine env st l =
        .next { st with status := { st.status with Features := (Split v).map TrimSpace } } ∧
      Split v = v.splitOn ' ' ∧ [' '].intercalate (Split v) = v ∧ (∀ t ∈ Split v, ' ' ∉ t) ∧
      ((Split v).map TrimSpace).length = v.count ' ' + 1 ∧
      (Split "rfm95 lora".toList).map TrimSpace = ["rfm95".toList, "lora".toList] := by
  refine ⟨?_, Split_eq_splitOn v, Split_intercalate v, Split_no_space v, ?_, by decide⟩
  · rw [processLine_parsed env st l _ v hp, decodeField_features]
  · rw [List.length_map, Split_length]

/-- C10, at the `features` line of the sample response. -/
theorem features_line_witness :
    parseLine "features: rfm95 lora\n".toList = some ("features".toList, "rfm95 lora".toList) ∧
      processLine exampleEnv { status := Status.zero exampleEnv, err := none }
          "features: rfm95 lora\n".toList =
        .next { status := { Status.zero exampleEnv with
                  Features := ["rfm95".toList, "lora".toList] }, err := none } :=
  ⟨by decide,
    (features_line exampleEnv { status := Status.zero exampleEnv, err := none }
      "features: rfm95 lora\n".toList "rfm95 lora".toList (by decide)).1⟩

theorem clsDigit_head (digits : Str) (hne : digits ≠ [])
    (hd : ∀ c ∈ digits, clsDigit c = true) :
    ¬ (digits.head? = some '-' ∨ digits.head? = some '+') := by
  cases digits with
  | nil => exact absurd rfl hne
  | cons c cs =>
    have hc := hd c (List.mem_cons_self _ _)
    simp only [List.head?_cons, Option.some.injEq]
    rintro (h | h) <;> subst h <;> revert hc <;> decide

/-- `strconv.Atoi` on a run of digits: its value, or the range error from 2 ^ 63 on. -/
theorem Atoi_digits (digits : Str) (n : Nat) (hne : digits ≠ [])
    (hd : ∀ c ∈ digits, clsDigit c = true) (hn : parseDigits digits 0 = some n) :
    Atoi digits =
      if n ≥ 2 ^ 63 then (2 ^ 63 - 1, some (.numError "Atoi".toList digits .rangeErr))
      else ((n : Int), none) := by
  have hh := clsDigit_head digits hne hd
  have hneg : ¬ (digits.head? = some '-') := fun h => hh (Or.inl h)
  have hpos : ¬ (digits.head? = some '+') := fun h => hh (Or.inr h)
  unfold Atoi
  simp only [hpos, or_self, if_false, hne, hn, hneg, decide_False, Bool.false_eq_true]

theorem decodeField_modem_config {F : Type} (env : Env F) (st : State F) (value : Str) :
    decodeField env st "modem config".toList value =
      if (cfgRegexp.FindStringSubmatch value).length ≠ 2 then
        .ret { st with err := some (.errorf
          ("failed to extract momdem config from ".toList ++ value)) }
      else
        match Atoi ((cfgRegexp.FindStringSubmatch value).getD 1 []) with
        | (_, some cfgModeIntErr) => .ret { st with err := some cfgModeIntErr }
        | (cfgModeInt, none) =>
          if cfgModeInt < 0 ∨ cfgModeInt > env.maxModemMode then
            .ret { st with err := some (.errorf ("modem config ".toList ++
              formatInt cfgModeInt ++ " is not in [0, ".toList ++
              formatInt env.maxModemMode ++ "]".toList)) }
          else
            .next { st with status := { st.status with Mode := cfgModeInt } } := rfl

theorem decodeField_mode_digits {F : Type} (env : Env F) (st : State F)
    (digits text : Str) (n : Nat) (hne : digits ≠ [])
    (hd : ∀ c ∈ digits, clsDigit c = true) (hn : parseDigits digits 0 = some n)
    (hmax : env.maxModemMode < 2 ^ 63) :
    decodeField env st "modem config".toList (digits ++ ' ' :: text) =
      if (n : Int) ≤ env.maxModemMode then
        .next { st with status := { st.status with Mode := n } }
      else .ret { st with err := some (modeRangeError env.maxModemMode digits n) } := by
  obtain ⟨m, hm⟩ := cfgRegexp_digits digits text hne hd
  rw [decodeField_modem_config, hm]
  simp only [List.length_cons, List.length_nil, List.getD_cons_succ, List.getD_cons_zero]
  rw [if_neg (by decide : ¬ (0 + 1 + 1 ≠ 2)), Atoi_digits digits n hne hd hn]
  by_cases hbig : n ≥ 2 ^ 63
  · have h1 : ¬ ((n : Int) ≤ env.maxModemMode) := by
      have : (2 : Int) ^ 63 ≤ n := by exact_mod_cast hbig
      omega
    have h2 : ¬ (n < 2 ^ 63) := by omega
    rw [if_pos hbig, if_neg h1, modeRangeError, if_neg h2]
  · have h2 : n < 2 ^ 63 := by omega
    rw [if_neg hbig]
    simp only
    by_cases hle : (n : Int) ≤ env.maxModemMode
    · have h3 : ¬ ((n : Int) < 0 ∨ (n : Int) > env.maxModemMode) := by omega
      rw [if_neg h3, if_pos hle]
    · have h3 : (n : Int) < 0 ∨ (n : Int) > env.maxModemMode := by omega
      rw [if_pos h3, if_neg hle, modeRangeError, if_pos h2]

/-- C9: a `modem config` line whose value is a run of digits for `n`, a space and
any text sets `Mode` to `n` without error when `n` is at most `maxModemMode`;
when `n` is beyond it the line ends the fetch with a range error, and the
fetch returns `Status{}`: no mode is set or clamped. -/
theorem modem_config_line {F : Type} (env : Env F) (st : State F) (l digits text : Str)
    (n : Nat) (hp : parseLine l = some ("modem config".toList, digits ++ ' ' :: text))
    (hne : digits ≠ []) (hd : ∀ c ∈ digits, clsDigit c = true)
    (hn : parseDigits digits 0 = some n) (hmax : env.maxModemMode < 2 ^ 63) :
    ((n : Int) ≤ env.maxModemMode →
        processLine env st l = .next { st with status := { st.status with Mode := n } }) ∧
      (env.maxModemMode < n →
        processLine env st l =
            .ret { st with err := some (modeRangeError env.maxModemMode digits n) } ∧
          ∀ pre post, (specAssemble env pre (Status.zero env)).isSome = true →
            FetchStatus env (pre ++ l :: post) none =
              (Status.zero env, some (modeRangeError env.maxModemMode digits n))) := by
  have hstep : ∀ st1 : State F, processLine env st1 l =
      if (n : Int) ≤ env.maxModemMode then
        .next { st1 with status := { st1.status with Mode := n } }
      else .ret { st1 with err := some (modeRangeError env.maxModemMode digits n) } := by
    intro st1
    rw [processLine_parsed env st1 l _ _ hp,
      decodeField_mode_digits env st1 digits text n hne hd hn hmax]
  refine ⟨fun hle => by rw [hstep, if_pos hle], fun hgt => ?_⟩
  have hnle : ¬ ((n : Int) ≤ env.maxModemMode) := by omega
  refine ⟨by rw [hstep, if_neg hnle], ?_⟩
  intro pre post hpre
  obtain ⟨s1, hs1⟩ := Option.isSome_iff_exists.mp hpre
  rw [FetchStatus_after_valid env pre (l :: post) s1 hs1]
  simp only [loop, hstep, if_neg hnle]

/-- C9, at the `modem config` line of the sample response, where the maximum is
4; next to it, the line `modem config: 99 x` fails the fetch. -/
theorem modem_config_line_witness :
    parseLine "modem config: 3 Bw125Cr48Sf4096\n".toList =
        some ("modem config".toList, "3".toList ++ ' ' :: "Bw125Cr48Sf4096".toList) ∧
      parseDigits "3".toList 0 = some 3 ∧ exampleEnv.maxModemMode < 2 ^ 63 ∧
      ((3 : Nat) : Int) ≤ exampleEnv.maxModemMode ∧
      processLine exampleEnv { status := Status.zero exampleEnv, err := none }
          "modem config: 3 Bw125Cr48Sf4096\n".toList =
        .next { status := { Status.zero exampleEnv with Mode := 3 }, err := none } ∧
      FetchStatus exampleEnv ["modem config: 99 x\n".toList] none =
        (Status.zero exampleEnv, some (.errorf "modem config 99 is not in [0, 4]".toList)) :=
  ⟨by decide, by decide, by decide, by decide,
    (modem_config_line exampleEnv { status := Status.zero exampleEnv, err := none }
      "modem config: 3 Bw125Cr48Sf4096\n".toList "3".toList "Bw125Cr48Sf4096".toList 3
      (by decide) (by decide) (by decide) (by decide) (by decide)).1 (by decide),
    by decide⟩

/-! ## The accessor `Mtu` and its cache -/

theorem Mtu_hit {D : Type} (updateMtu : Modem D → Modem D × Option Error)
    (modem : Modem D) (h : modem.mtu ≠ 0) :
    Modem.Mtu updateMtu modem =
      { mtu := modem.mtu, err := none, modem := modem, calls := 0 } := by
  unfold Modem.Mtu
  rw [if_neg h]

/-- C15: with a non-zero `mtu` in the cache, `Mtu` returns that value and a nil
error, does not invoke `updateMtu`, and leaves the handle as it was. -/
theorem Mtu_cached {D : Type} (updateMtu : Modem D → Modem D × Option Error)
    (modem : Modem D) (h : modem.mtu ≠ 0) :
    Modem.Mtu updateMtu modem =
      { mtu := modem.mtu, err := none, modem := modem, calls := 0 } := by
  unfold Modem.Mtu
  rw [if_neg h]

/-- C15, at a handle caching 255, with an update procedure that would fail. -/
theorem Mtu_cached_witness :
    (255 : Int) ≠ 0 ∧
      Modem.Mtu (fun m : Modem Unit => (m, some (Error.transport "timeout".toList)))
          { mtu := 255, rest := () } =
        { mtu := 255, err := none, modem := { mtu := 255, rest := () }, calls := 0 } :=
  ⟨by decide,
    Mtu_cached (fun m : Modem Unit => (m, some (Error.transport "timeout".toList)))
      { mtu := 255, rest := () } (by decide)⟩

/-- C16 as stated fails: with an empty cache and an update procedure that
fails and leaves the cache at 0, each of two consecutive calls of `Mtu` invokes
the procedure. -/
theorem Mtu_twice_counterexample :
    (Modem.Mtu (fun m : Modem Unit => (m, some (Error.transport "timeout".toList)))
        { mtu := 0, rest := () }).calls +
      (Modem.Mtu (fun m : Modem Unit => (m, some (Error.transport "timeout".toList)))
        (Modem.Mtu (fun m : Modem Unit => (m, some (Error.transport "timeout".toList)))
          { mtu := 0, rest := () }).modem).calls = 2 := by
  decide

theorem Mtu_calls {D : Type} (updateMtu : Modem D → Modem D × Option Error)
    (modem : Modem D) :
    (Modem.Mtu updateMtu modem).calls = if modem.mtu = 0 then 1 else 0 := by
  unfold Modem.Mtu
  by_cases h0 : modem.mtu = 0
  · simp only [h0, if_true]
    rcases updateMtu modem with ⟨m1, _ | e⟩ <;> rfl
  · simp only [h0, if_false]

theorem Mtu_ok_cache {D : Type} (updateMtu : Modem D → Modem D × Option Error)
    (modem : Modem D) (he : (Modem.Mtu updateMtu modem).err = none) :
    (Modem.Mtu updateMtu modem).mtu = (Modem.Mtu updateMtu modem).modem.mtu := by
  unfold Modem.Mtu at he ⊢
  by_cases h0 : modem.mtu = 0
  · simp only [h0, if_true] at he ⊢
    rcases hu : updateMtu modem with ⟨m1, _ | e⟩
    · rfl
    · simp only [hu] at he
      cases he
  · simp only [h0, if_false]

/-- C16 amended: of two consecutive calls of `Mtu`, the second invokes
`updateMtu` exactly when the first left the cache at 0, once then and not at
all otherwise, whatever error the first call returned; the two calls invoke
`updateMtu` at most once in total exactly when the first call leaves a
non-zero `mtu` in the cache. That is the case in particular when the first
call returns a non-zero `mtu` with a nil error, and the second call then
returns the cached value with a nil error and leaves the handle as it was. -/
theorem Mtu_twice {D : Type} (updateMtu : Modem D → Modem D × Option Error)
    (modem : Modem D) :
    ((Modem.Mtu updateMtu (Modem.Mtu updateMtu modem).modem).calls =
        if (Modem.Mtu updateMtu modem).modem.mtu = 0 then 1 else 0) ∧
      ((Modem.Mtu updateMtu modem).calls +
          (Modem.Mtu updateMtu (Modem.Mtu updateMtu modem).modem).calls ≤ 1 ↔
        (Modem.Mtu updateMtu modem).modem.mtu ≠ 0) ∧
      ((Modem.Mtu updateMtu modem).err = none ∧ (Modem.Mtu updateMtu modem).mtu ≠ 0 →
        (Modem.Mtu updateMtu modem).modem.mtu ≠ 0) ∧
      ((Modem.Mtu updateMtu modem).modem.mtu ≠ 0 →
        Modem.Mtu updateMtu (Modem.Mtu updateMtu modem).modem =
          { mtu := (Modem.Mtu updateMtu modem).modem.mtu, err := none,
            modem := (Modem.Mtu updateMtu modem).modem, calls := 0 }) := by
  refine ⟨Mtu_calls updateMtu _, ?_, ?_, fun hne => Mtu_hit updateMtu _ hne⟩
  · rw [Mtu_calls updateMtu (Modem.Mtu updateMtu modem).modem, Mtu_calls updateMtu modem]
    by_cases h0 : modem.mtu = 0
    · rw [if_pos h0]
      by_cases h1 : (Modem.Mtu updateMtu modem).modem.mtu = 0
      · rw [if_pos h1]
        constructor
        · intro h; omega
        · intro h; exact absurd h1 h
      · rw [if_neg h1]
        exact ⟨fun _ => h1, fun _ => by omega⟩
    · have e := Mtu_hit updateMtu modem h0
      have h1 : (Modem.Mtu updateMtu modem).modem.mtu ≠ 0 := by rw [e]; exact h0
      rw [if_neg h0, if_neg h1]
      exact ⟨fun _ => h1, fun _ => by omega⟩
  · rintro ⟨he, hm⟩
    rw [← Mtu_ok_cache updateMtu modem he]
    exact hm

/-- C16 amended, at an empty cache with an update procedure that writes 255 to
the cache and still reports an error: the first call returns the error, the
second is a cache hit, and the procedure runs once. -/
theorem Mtu_twice_witness :
    (Modem.Mtu (fun m : Modem Unit => ({ m with mtu := 255 }, some (Error.transport [])))
        { mtu := 0, rest := () }).modem.mtu ≠ 0 ∧
      (Modem.Mtu (fun m : Modem Unit => ({ m with mtu := 255 }, some (Error.transport [])))
        { mtu := 0, rest := () }).err = some (Error.transport []) ∧
      (Modem.Mtu (fun m : Modem Unit => ({ m with mtu := 255 }, some (Error.transport [])))
          { mtu := 0, rest := () }).calls +
        (Modem.Mtu (fun m : Modem Unit => ({ m with mtu := 255 }, some (Error.transport [])))
          (Modem.Mtu (fun m : Modem Unit => ({ m with mtu := 255 }, some (Error.transport [])))
            { mtu := 0, rest := () }).modem).calls ≤ 1 :=
  ⟨by decide, by decide,
    (Mtu_twice (fun m : Modem Unit => ({ m with mtu := 255 }, some (Error.transport [])))
      { mtu := 0, rest := () }).2.1.mpr (by decide)⟩

/-! ## Lines that leave the loop state as it is -/

theorem FetchStatus_congr {F : Type} (env : Env F) (a b : List Str) (cmdErr : Option Error)
    (h : ∀ st, loop env st a = loop env st b) :
    FetchStatus env a cmdErr = FetchStatus env b cmdErr := by
  unfold FetchStatus
  cases cmdErr with
  | some e => rfl
  | none => simp only [h]

theorem loop_filter_framing {F : Type} (env : Env F) (lines : List Str) (st : State F) :
    loop env st (lines.filter (fun l => decide (l ∉ framingLines))) = loop env st lines := by
  induction lines generalizing st with
  | nil => rfl
  | cons l ls ih =>
    by_cases hf : l ∈ framingLines
    · have hd : decide (l ∉ framingLines) = false := by simpa using hf
      rw [List.filter_cons, hd]
      simp only [Bool.false_eq_true, if_false, loop, processLine_framing env st l hf]
      exact ih st
    · have hd : decide (l ∉ framingLines) = true := by simpa using hf
      rw [List.filter_cons, hd]
      simp only [if_true, loop]
      cases processLine env st l with
      | next st1 => exact ih st1
      | ret st1 => rfl

/-- C18: deleting the framing lines of a response, all of them or any of them
at any positions, leaves the result of `FetchStatus` as it was: the same
status and the same error. -/
theorem FetchStatus_without_framing {F : Type} (env : Env F) (lines : List Str)
    (cmdErr : Option Error) :
    FetchStatus env (lines.filter (fun l => decide (l ∉ framingLines))) cmdErr =
        FetchStatus env lines cmdErr ∧
      ∀ shorter : List Str,
        shorter.filter (fun l => decide (l ∉ framingLines)) =
            lines.filter (fun l => decide (l ∉ framingLines)) →
          FetchStatus env shorter cmdErr = FetchStatus env lines cmdErr := by
  refine ⟨FetchStatus_congr env _ _ cmdErr (fun st => loop_filter_framing env lines st), ?_⟩
  intro shorter h
  apply FetchStatus_congr
  intro st
  rw [← loop_filter_framing env shorter st, h, loop_filter_framing env lines st]

/-- C18, at the sample response with its marker `+STATUS:` deleted and its
`+OK` kept. -/
theorem FetchStatus_without_framing_witness :
    (sampleWire.tail).filter (fun l => decide (l ∉ framingLines)) =
        sampleWire.filter (fun l => decide (l ∉ framingLines)) ∧
      FetchStatus exampleEnv sampleWire.tail none = FetchStatus exampleEnv sampleWire none :=
  ⟨by decide, (FetchStatus_without_framing exampleEnv sampleWire none).2 sampleWire.tail
    (by decide)⟩

theorem loop_remove {F : Type} (env : Env F) (l : Str) (pre post : List Str)
    (h : ∀ st : State F, processLine env st l = .next st) (st : State F) :
    loop env st (pre ++ l :: post) = loop env st (pre ++ post) := by
  induction pre generalizing st with
  | nil => simp only [List.nil_append, loop, h]
  | cons x xs ih =>
    simp only [List.cons_append, loop]
    cases processLine env st x with
    | next st1 => exact ih st1
    | ret st1 => rfl

theorem decodeField_rx_listener {F : Type} (env : Env F) (st : State F) (value : Str) :
    decodeField env st "rx listener".toList value = .next st := rfl

theorem decodeField_GPS {F : Type} (env : Env F) (st : State F) (value : Str) :
    decodeField env st "GPS".toList value = .next st := rfl

/-- C20: a `key: value` line whose key is `rx listener` or `GPS` never fails,
whatever its value, and leaves the nine fields and the error as they were; so
removing such a line from a response does not change the result of
`FetchStatus`. -/
theorem ignored_line {F : Type} (env : Env F) (l key value : Str)
    (hp : parseLine l = some (key, value))
    (hk : key = "rx listener".toList ∨ key = "GPS".toList) :
    (∀ st : State F, processLine env st l = .next st) ∧
      ∀ pre post cmdErr,
        FetchStatus env (pre ++ l :: post) cmdErr = FetchStatus env (pre ++ post) cmdErr := by
  have h : ∀ st : State F, processLine env st l = .next st := by
    intro st
    rw [processLine_parsed env st l key value hp]
    rcases hk with hk | hk <;> subst hk
    · exact decodeField_rx_listener env st value
    · exact decodeField_GPS env st value
  refine ⟨h, ?_⟩
  intro pre post cmdErr
  exact FetchStatus_congr env _ _ cmdErr (fun st => loop_remove env l pre post h st)

/-- C20, at the `GPS` line of the sample response with a value that is no number. -/
theorem ignored_line_witness :
    parseLine "GPS: no fix\n".toList = some ("GPS".toList, "no fix".toList) ∧
      FetchStatus exampleEnv (["BFB: 7\n".toList] ++ "GPS: no fix\n".toList :: ["+OK\n".toList])
          none =
        FetchStatus exampleEnv (["BFB: 7\n".toList] ++ ["+OK\n".toList]) none :=
  ⟨by decide,
    (ignored_line exampleEnv "GPS: no fix\n".toList "GPS".toList "no fix".toList
      (by decide) (Or.inr rfl)).2 ["BFB: 7\n".toList] ["+OK\n".toList] none⟩

/-! ## The fields of a successful fetch -/

/-- A line the decode table accepts changes the field paired with its key and
nothing else. -/
theorem specDecode_assign {F : Type} (env : Env F) (key value : Str) (s s1 : Status F)
    (h : specDecode env key value s = some s1) : s1 = assign env key value s := by
  unfold specDecode at h
  by_cases h1 : key = "firmware".toList
  · simp only [eq_true h1, if_true] at h
    cases h; subst h1; rfl
  simp only [eq_false h1, if_false] at h
  by_cases h2 : key = "features".toList
  · simp only [eq_true h2, if_true] at h
    cases h; subst h2; rfl
  simp only [eq_false h2, if_false] at h
  by_cases h3 : key = "modem config".toList
  · simp only [eq_true h3, if_true] at h
    by_cases hd : value.takeWhile clsDigit = [] ∨
        (value.drop (value.takeWhile clsDigit).length).head? ≠ some ' '
    · rw [if_pos hd] at h; cases h
    · rw [if_neg hd] at h
      have e : assign env "modem config".toList value s =
          { s with Mode := (Atoi (value.takeWhile clsDigit)).1 } := rfl
      rcases hA : Atoi (value.takeWhile clsDigit) with ⟨n, _ | er⟩
      · simp only [hA] at h
        by_cases hr : 0 ≤ n ∧ n ≤ env.maxModemMode
        · rw [if_pos hr] at h
          cases h; subst h3
          rw [e, hA]
        · rw [if_neg hr] at h; cases h
      · simp only [hA] at h; cases h
  simp only [eq_false h3, if_false] at h
  by_cases h4 : key = "frequency".toList
  · simp only [eq_true h4, if_true] at h
    have e : assign env "frequency".toList value s =
        { s with Frequency := match env.ParseFloat value with
                              | .ok f => f
                              | .error _ => s.Frequency } := rfl
    cases hf : env.ParseFloat value with
    | error er => simp only [hf] at h; cases h
    | ok f =>
      simp only [hf] at h
      cases h; subst h4
      rw [e, hf]
  simp only [eq_false h4, if_false] at h
  by_cases h5 : key = "max pkt size".toList
  · simp only [eq_true h5, if_true] at h
    have e : assign env "max pkt size".toList value s = { s with Mtu := (Atoi value).1 } := rfl
    rcases hA : Atoi value with ⟨n, _ | er⟩
    · simp only [hA] at h; cases h; subst h5; rw [e, hA]
    · simp only [hA] at h; cases h
  simp only [eq_false h5, if_false] at h
  by_cases h6 : key = "BFB".toList
  · simp only [eq_true h6, if_true] at h
    have e : assign env "BFB".toList value s = { s with Bfb := (Atoi value).1 } := rfl
    rcases hA : Atoi value with ⟨n, _ | er⟩
    · simp only [hA] at h; cases h; subst h6; rw [e, hA]
    · simp only [hA] at h; cases h
  simp only [eq_false h6, if_false] at h
  by_cases h7 : key = "rx bad".toList
  · simp only [eq_true h7, if_true] at h
    have e : assign env "rx bad".toList value s = { s with RxBad := (Atoi value).1 } := rfl
    rcases hA : Atoi value with ⟨n, _ | er⟩
    · simp only [hA] at h; cases h; subst h7; rw [e, hA]
    · simp only [hA] at h; cases h
  simp only [eq_false h7, if_false] at h
  by_cases h8 : key = "rx good".toList
  · simp only [eq_true h8, if_true] at h
    have e : assign env "rx good".toList value s = { s with RxGood := (Atoi value).1 } := rfl
    rcases hA : Atoi value with ⟨n, _ | er⟩
    · simp only [hA] at h; cases h; subst h8; rw [e, hA]
    · simp only [hA] at h; cases h
  simp only [eq_false h8, if_false] at h
  by_cases h9 : key = "tx good".toList
  · simp only [eq_true h9, if_true] at h
    have e : assign env "tx good".toList value s = { s with TxGood := (Atoi value).1 } := rfl
    rcases hA : Atoi value with ⟨n, _ | er⟩
    · simp only [hA] at h; cases h; subst h9; rw [e, hA]
    · simp only [hA] at h; cases h
  simp only [eq_false h9, if_false] at h
  by_cases h10 : key = "rx listener".toList ∨ key = "GPS".toList
  · simp only [eq_true h10, if_true] at h
    cases h
    unfold assign
    rcases h10 with h10 | h10 <;> subst h10 <;> rfl
  simp only [eq_false h10, if_false] at h
  cases h

/-- A field keeps its start value when no line carries its key, and otherwise
holds what the last line carrying the key decodes to. -/
theorem last_assigned {F α : Type} (env : Env F) (proj : Status F → α) (K : Str)
    (R : Str → α → Prop)
    (H : ∀ k v s s1, specDecode env k v s = some s1 →
      (k = K → R v (proj s1)) ∧ (k ≠ K → proj s1 = proj s))
    (lines : List Str) (s st : Status F) (h : specAssemble env lines s = some st) :
    match lastValue K lines with
    | none => proj st = proj s
    | some v => R v (proj st) := by
  induction lines generalizing s with
  | nil =>
    simp only [specAssemble, Option.some.injEq] at h
    subst h
    simp only [lastValue]
  | cons l ls ih =>
    unfold specAssemble at h
    unfold lastValue
    by_cases hf : l ∈ framingLines
    · rw [if_pos hf] at h
      have := ih s h
      rw [parseLine_framing l hf]
      cases hl : lastValue K ls with
      | none => rw [hl] at this; exact this
      | some w => rw [hl] at this; exact this
    · rw [if_neg hf] at h
      cases hp : parseLine l with
      | none => rw [hp] at h; cases h
      | some kv =>
        obtain ⟨k, v⟩ := kv
        rw [hp] at h
        simp only at h
        cases hd : specDecode env k v s with
        | none => rw [hd] at h; cases h
        | some s1 =>
          rw [hd] at h
          simp only at h
          have := ih s1 h
          have hH := H k v s s1 hd
          cases hl : lastValue K ls with
          | some w => rw [hl] at this; exact this
          | none =>
            rw [hl] at this
            simp only at this ⊢
            by_cases hk : k = K
            · rw [if_pos hk]
              simp only
              rw [this]
              exact hH.1 hk
            · rw [if_neg hk]
              simp only
              rw [this]
              exact hH.2 hk

theorem specDecode_frequency {F : Type} (env : Env F) (v : Str) (s s1 : Status F)
    (h : specDecode env "frequency".toList v s = some s1) :
    env.ParseFloat v = .ok s1.Frequency := by
  have e : specDecode env "frequency".toList v s =
      match env.ParseFloat v with
      | .ok f => some { s with Frequency := f }
      | .error _ => none := rfl
  rw [e] at h
  cases hf : env.ParseFloat v with
  | error er => rw [hf] at h; cases h
  | ok f => rw [hf] at h; cases h; rfl

theorem specDecode_mode_range {F : Type} (env : Env F) (k v : Str) (s s1 : Status F)
    (h : specDecode env k v s = some s1)
    (hs : 0 ≤ s.Mode ∧ s.Mode ≤ env.maxModemMode) :
    0 ≤ s1.Mode ∧ s1.Mode ≤ env.maxModemMode := by
  by_cases h3 : k = "modem config".toList
  · subst h3
    have e : specDecode env "modem config".toList v s =
        if v.takeWhile clsDigit = [] ∨
            (v.drop (v.takeWhile clsDigit).length).head? ≠ some ' ' then none
        else
          match Atoi (v.takeWhile clsDigit) with
          | (n, none) =>
            if 0 ≤ n ∧ n ≤ env.maxModemMode then some { s with Mode := n } else none
          | (_, some _) => none := rfl
    rw [e] at h
    by_cases hd : v.takeWhile clsDigit = [] ∨
        (v.drop (v.takeWhile clsDigit).length).head? ≠ some ' '
    · rw [if_pos hd] at h; cases h
    · rw [if_neg hd] at h
      rcases hA : Atoi (v.takeWhile clsDigit) with ⟨n, _ | er⟩
      · simp only [hA] at h
        by_cases hr : 0 ≤ n ∧ n ≤ env.maxModemMode
        · rw [if_pos hr] at h; cases h; exact hr
        · rw [if_neg hr] at h; cases h
      · simp only [hA] at h; cases h
  · have e := specDecode_assign env k v s s1 h
    subst e
    simp only [assign, if_neg h3]
    exact hs

theorem specAssemble_mode_range {F : Type} (env : Env F) (lines : List Str) (s st : Status F)
    (h : specAssemble env lines s = some st)
    (hs : 0 ≤ s.Mode ∧ s.Mode ≤ env.maxModemMode) :
    0 ≤ st.Mode ∧ st.Mode ≤ env.maxModemMode := by
  induction lines generalizing s with
  | nil =>
    simp only [specAssemble, Option.some.injEq] at h
    subst h; exact hs
  | cons l ls ih =>
    unfold specAssemble at h
    by_cases hf : l ∈ framingLines
    · rw [if_pos hf] at h; exact ih s h hs
    · rw [if_neg hf] at h
      cases hp : parseLine l with
      | none => rw [hp] at h; cases h
      | some kv =>
        obtain ⟨k, v⟩ := kv
        rw [hp] at h
        simp only at h
        cases hd : specDecode env k v s with
        | none => rw [hd] at h; cases h
        | some s1 =>
          rw [hd] at h
          simp only at h
          exact ih s1 h (specDecode_mode_range env k v s s1 hd hs)

/-- C13: when `FetchStatus` returns no error and `maxModemMode` is not negative,
the mode of the returned status lies between 0 and `maxModemMode`. -/
theorem FetchStatus_mode_range {F : Type} (env : Env F) (lines : List Str) (st : Status F)
    (hmax : 0 ≤ env.maxModemMode) (h : FetchStatus env lines none = (st, none)) :
    0 ≤ st.Mode ∧ st.Mode ≤ env.maxModemMode :=
  specAssemble_mode_range env lines (Status.zero env) st
    ((FetchStatus_eq_iff_spec env lines st).mp h) ⟨le_refl _, hmax⟩

/-- C13, at a response that sets the mode to 3 and then to 1. -/
theorem FetchStatus_mode_range_witness :
    (0 : Int) ≤ exampleEnv.maxModemMode ∧
      FetchStatus exampleEnv ["modem config: 3 a\n".toList, "modem config: 1 b\n".toList] none =
        ({ Status.zero exampleEnv with Mode := 1 }, none) ∧
      (0 : Int) ≤ 1 ∧ (1 : Int) ≤ exampleEnv.maxModemMode :=
  ⟨by decide, by decide,
    FetchStatus_mode_range exampleEnv
      ["modem config: 3 a\n".toList, "modem config: 1 b\n".toList]
      { Status.zero exampleEnv with Mode := 1 } (by decide) (by decide)⟩

theorem specDecode_mode {F : Type} (env : Env F) (v : Str) (s s1 : Status F)
    (h : specDecode env "modem config".toList v s = some s1) :
    Atoi (v.takeWhile clsDigit) = (s1.Mode, none) := by
  have e : specDecode env "modem config".toList v s =
      if v.takeWhile clsDigit = [] ∨
          (v.drop (v.takeWhile clsDigit).length).head? ≠ some ' ' then none
      else
        match Atoi (v.takeWhile clsDigit) with
        | (n, none) =>
          if 0 ≤ n ∧ n ≤ env.maxModemMode then some { s with Mode := n } else none
        | (_, some _) => none := rfl
  rw [e] at h
  by_cases hd : v.takeWhile clsDigit = [] ∨
      (v.drop (v.takeWhile clsDigit).length).head? ≠ some ' '
  · rw [if_pos hd] at h; cases h
  · rw [if_neg hd] at h
    rcases hA : Atoi (v.takeWhile clsDigit) with ⟨n, _ | er⟩
    · simp only [hA] at h
      by_cases hr : 0 ≤ n ∧ n ≤ env.maxModemMode
      · rw [if_pos hr] at h; cases h; rfl
      · rw [if_neg hr] at h; cases h
    · simp only [hA] at h; cases h

theorem specDecode_mtu {F : Type} (env : Env F) (v : Str) (s s1 : Status F)
    (h : specDecode env "max pkt size".toList v s = some s1) : Atoi v = (s1.Mtu, none) := by
  have e : specDecode env "max pkt size".toList v s =
      match Atoi v with
      | (n, none) => some { s with Mtu := n }
      | (_, some _) => none := rfl
  rw [e] at h
  rcases hA : Atoi v with ⟨n, _ | er⟩
  · simp only [hA] at h; cases h; rfl
  · simp only [hA] at h; cases h

theorem specDecode_bfb {F : Type} (env : Env F) (v : Str) (s s1 : Status F)
    (h : specDecode env "BFB".toList v s = some s1) : Atoi v = (s1.Bfb, none) := by
  have e : specDecode env "BFB".toList v s =
      match Atoi v with
      | (n, none) => some { s with Bfb := n }
      | (_, some _) => none := rfl
  rw [e] at h
  rcases hA : Atoi v with ⟨n, _ | er⟩
  · simp only [hA] at h; cases h; rfl
  · simp only [hA] at h; cases h

theorem specDecode_rxBad {F : Type} (env : Env F) (v : Str) (s s1 : Status F)
    (h : specDecode env "rx bad".toList v s = some s1) : Atoi v = (s1.RxBad, none) := by
  have e : specDecode env "rx bad".toList v s =
      match Atoi v with
      | (n, none) => some { s with RxBad := n }
      | (_, some _) => none := rfl
  rw [e] at h
  rcases hA : Atoi v with ⟨n, _ | er⟩
  · simp only [hA] at h; cases h; rfl
  · simp only [hA] at h; cases h

theorem specDecode_rxGood {F : Type} (env : Env F) (v : Str) (s s1 : Status F)
    (h : specDecode env "rx good".toList v s = some s1) : Atoi v = (s1.RxGood, none) := by
  have e : specDecode env "rx good".toList v s =
      match Atoi v with
      | (n, none) => some { s with RxGood := n }
      | (_, some _) => none := rfl
  rw [e] at h
  rcases hA : Atoi v with ⟨n, _ | er⟩
  · simp only [hA] at h; cases h; rfl
  · simp only [hA] at h; cases h

theorem specDecode_txGood {F : Type} (env : Env F) (v : Str) (s s1 : Status F)
    (h : specDecode env "tx good".toList v s = some s1) : Atoi v = (s1.TxGood, none) := by
  have e : specDecode env "tx good".toList v s =
      match Atoi v with
      | (n, none) => some { s with TxGood := n }
      | (_, some _) => none := rfl
  rw [e] at h
  rcases hA : Atoi v with ⟨n, _ | er⟩
  · simp only [hA] at h; cases h; rfl
  · simp only [hA] at h; cases h

/-- The field read by `proj` after a successful run of the assembler: its start
value when no line carries the key `K`, what the last such line decodes to
otherwise. -/
theorem field_last {F α : Type} (env : Env F) (proj : Status F → α) (K : Str)
    (R : Str → α → Prop)
    (hpos : ∀ v s s1, specDecode env K v s = some s1 → R v (proj s1))
    (hneg : ∀ k v s, k ≠ K → proj (assign env k v s) = proj s)
    (lines : List Str) (s st : Status F) (h : specAssemble env lines s = some st) :
    match lastValue K lines with
    | none => proj st = proj s
    | some v => R v (proj st) := by
  apply last_assigned env proj K R _ lines s st h
  intro k v s0 s1 hd
  refine ⟨fun hk => ?_, fun hk => ?_⟩
  · subst hk; exact hpos v s0 s1 hd
  · rw [specDecode_assign env k v s0 s1 hd]; exact hneg k v s0 hk

theorem Atoi_nonneg (v : Str) (h : v.head? ≠ some '-') : 0 ≤ (Atoi v).1 := by
  unfold Atoi
  have hneg : decide (v.head? = some '-') = false := by simpa using h
  simp only [hneg, Bool.false_eq_true, if_false]
  generalize (if v.head? = some '-' ∨ v.head? = some '+' then v.tail else v) = body
  by_cases hb : body = []
  · rw [if_pos hb]
  · rw [if_neg hb]
    cases parseDigits body 0 with
    | none => exact le_refl _
    | some n =>
      simp only
      by_cases hn : n ≥ 2 ^ 63
      · rw [if_pos hn]
        show (0 : Int) ≤ 2 ^ 63 - 1
        norm_num
      · rw [if_neg hn]
        exact Int.ofNat_nonneg n

/-- C12 as stated fails: the empty response, and a response of framing lines
only, give the zero-value status with no error, and a response with the
firmware line alone gives no error though no line carries the other keys. -/
theorem FetchStatus_fields_counterexample :
    FetchStatus exampleEnv [] none = (Status.zero exampleEnv, none) ∧
      FetchStatus exampleEnv ["+STATUS:\n".toList, "+OK\n".toList] none =
        (Status.zero exampleEnv, none) ∧
      FetchStatus exampleEnv ["firmware: 0.6.0\n".toList] none =
        ({ Status.zero exampleEnv with Firmware := "0.6.0".toList }, none) ∧
      lastValue "max pkt size".toList ["firmware: 0.6.0\n".toList] = none := by
  decide

/-- C12 amended: when `FetchStatus` returns no error, each of the nine fields of
the returned status holds its zero value if no line of the response carries
the field's key, and otherwise the value decoded from the last line carrying
that key. -/
theorem FetchStatus_fields {F : Type} (env : Env F) (lines : List Str) (st : Status F)
    (h : FetchStatus env lines none = (st, none)) :
    (match lastValue "firmware".toList lines with
      | none => st.Firmware = []
      | some v => st.Firmware = v) ∧
    (match lastValue "features".toList lines with
      | none => st.Features = []
      | some v => st.Features = (Split v).map TrimSpace) ∧
    (match lastValue "modem config".toList lines with
      | none => st.Mode = 0
      | some v => Atoi (v.takeWhile clsDigit) = (st.Mode, none)) ∧
    (match lastValue "max pkt size".toList lines with
      | none => st.Mtu = 0
      | some v => Atoi v = (st.Mtu, none)) ∧
    (match lastValue "frequency".toList lines with
      | none => st.Frequency = env.zeroFloat
      | some v => env.ParseFloat v = .ok st.Frequency) ∧
    (match lastValue "BFB".toList lines with
      | none => st.Bfb = 0
      | some v => Atoi v = (st.Bfb, none)) ∧
    (match lastValue "rx bad".toList lines with
      | none => st.RxBad = 0
      | some v => Atoi v = (st.RxBad, none)) ∧
    (match lastValue "rx good".toList lines with
      | none => st.RxGood = 0
      | some v => Atoi v = (st.RxGood, none)) ∧
    (match lastValue "tx good".toList lines with
      | none => st.TxGood = 0
      | some v => Atoi v = (st.TxGood, none)) := by
  have hs := (FetchStatus_eq_iff_spec env lines st).mp h
  refine ⟨?_, ?_, ?_, ?_, ?_, ?_, ?_, ?_, ?_⟩
  · exact field_last env (fun s => s.Firmware) "firmware".toList (fun v a => a = v)
      (fun v s s1 hd => by rw [specDecode_assign env _ v s s1 hd]; rfl)
      (fun k v s hk => by simp only [assign, if_neg hk]) lines _ st hs
  · exact field_last env (fun s => s.Features) "features".toList
      (fun v a => a = (Split v).map TrimSpace)
      (fun v s s1 hd => by rw [specDecode_assign env _ v s s1 hd]; rfl)
      (fun k v s hk => by simp only [assign, if_neg hk]) lines _ st hs
  · exact field_last env (fun s => s.Mode) "modem config".toList
      (fun v a => Atoi (v.takeWhile clsDigit) = (a, none))
      (fun v s s1 hd => specDecode_mode env v s s1 hd)
      (fun k v s hk => by simp only [assign, if_neg hk]) lines _ st hs
  · exact field_last env (fun s => s.Mtu) "max pkt size".toList
      (fun v a => Atoi v = (a, none))
      (fun v s s1 hd => specDecode_mtu env v s s1 hd)
      (fun k v s hk => by simp only [assign, if_neg hk]) lines _ st hs
  · exact field_last env (fun s => s.Frequency) "frequency".toList
      (fun v a => env.ParseFloat v = .ok a)
      (fun v s s1 hd => specDecode_frequency env v s s1 hd)
      (fun k v s hk => by simp only [assign, if_neg hk]) lines _ st hs
  · exact field_last env (fun s => s.Bfb) "BFB".toList
      (fun v a => Atoi v = (a, none))
      (fun v s s1 hd => specDecode_bfb env v s s1 hd)
      (fun k v s hk => by simp only [assign, if_neg hk]) lines _ st hs
  · exact field_last env (fun s => s.RxBad) "rx bad".toList
      (fun v a => Atoi v = (a, none))
      (fun v s s1 hd => specDecode_rxBad env v s s1 hd)
      (fun k v s hk => by simp only [assign, if_neg hk]) lines _ st hs
  · exact field_last env (fun s => s.RxGood) "rx good".toList
      (fun v a => Atoi v = (a, none))
      (fun v s s1 hd => specDecode_rxGood env v s s1 hd)
      (fun k v s hk => by simp only [assign, if_neg hk]) lines _ st hs
  · exact field_last env (fun s => s.TxGood) "tx good".toList
      (fun v a => Atoi v = (a, none))
      (fun v s s1 hd => specDecode_txGood env v s s1 hd)
      (fun k v s hk => by simp only [assign, if_neg hk]) lines _ st hs

/-- C12 amended, at a response with two `BFB` lines and no other payload line:
the counter comes from the second, the firmware keeps its zero value. -/
theorem FetchStatus_fields_witness :
    FetchStatus exampleEnv ["BFB: 1\n".toList, "BFB: 2\n".toList, "+OK\n".toList] none =
        ({ Status.zero exampleEnv with Bfb := 2 }, none) ∧
      lastValue "BFB".toList ["BFB: 1\n".toList, "BFB: 2\n".toList, "+OK\n".toList] =
        some "2".toList ∧
      lastValue "firmware".toList ["BFB: 1\n".toList, "BFB: 2\n".toList, "+OK\n".toList] =
        none ∧
      (match lastValue "firmware".toList
          ["BFB: 1\n".toList, "BFB: 2\n".toList, "+OK\n".toList] with
        | none => ({ Status.zero exampleEnv with Bfb := 2 } : Status (Nat × Nat)).Firmware = []
        | some v => ({ Status.zero exampleEnv with Bfb := 2 } : Status (Nat × Nat)).Firmware = v) :=
  ⟨by decide, by decide, by decide,
    (FetchStatus_fields exampleEnv ["BFB: 1\n".toList, "BFB: 2\n".toList, "+OK\n".toList]
      { Status.zero exampleEnv with Bfb := 2 } (by decide)).1⟩

/-- C14 as stated fails: `max pkt size: -5` gives a successful status with the
negative `Mtu` -5. -/
theorem FetchStatus_mtu_counterexample :
    FetchStatus exampleEnv ["max pkt size: -5\n".toList] none =
      ({ Status.zero exampleEnv with Mtu := -5 }, none) := by
  decide

/-- C14 amended: when `FetchStatus` returns no error, `Mtu` is 0 if the response
has no `max pkt size` line, and otherwise the integer `strconv.Atoi` reads from
the value of the last such line, sign included; it is not negative whenever
that value does not start with a minus sign. -/
theorem FetchStatus_mtu {F : Type} (env : Env F) (lines : List Str) (st : Status F)
    (h : FetchStatus env lines none = (st, none)) :
    match lastValue "max pkt size".toList lines with
    | none => st.Mtu = 0
    | some v => Atoi v = (st.Mtu, none) ∧ (v.head? ≠ some '-' → 0 ≤ st.Mtu) := by
  have hs := (FetchStatus_eq_iff_spec env lines st).mp h
  have h1 := field_last env (fun s => s.Mtu) "max pkt size".toList
    (fun v a => Atoi v = (a, none))
    (fun v s s1 hd => specDecode_mtu env v s s1 hd)
    (fun k v s hk => by simp only [assign, if_neg hk]) lines _ st hs
  cases hl : lastValue "max pkt size".toList lines with
  | none => rw [hl] at h1; exact h1
  | some v =>
    rw [hl] at h1
    simp only at h1 ⊢
    refine ⟨h1, fun hv => ?_⟩
    have := Atoi_nonneg v hv
    rw [h1] at this
    exact this

/-- C14 amended, at the `max pkt size` line of the sample response. -/
theorem FetchStatus_mtu_witness :
    FetchStatus exampleEnv ["max pkt size: 255\n".toList] none =
        ({ Status.zero exampleEnv with Mtu := 255 }, none) ∧
      (match lastValue "max pkt size".toList ["max pkt size: 255\n".toList] with
        | none => ({ Status.zero exampleEnv with Mtu := 255 } : Status (Nat × Nat)).Mtu = 0
        | some v =>
          Atoi v = (({ Status.zero exampleEnv with Mtu := 255 } : Status (Nat × Nat)).Mtu, none) ∧
            (v.head? ≠ some '-' →
              0 ≤ ({ Status.zero exampleEnv with Mtu := 255 } : Status (Nat × Nat)).Mtu)) :=
  ⟨by decide,
    FetchStatus_mtu exampleEnv ["max pkt size: 255\n".toList]
      { Status.zero exampleEnv with Mtu := 255 } (by decide)⟩

/-- C11 as stated fails: a single firmware line, returned without transport
error, has no `+OK` line and fewer than 13 lines, and `FetchStatus` returns no
error and the record with the firmware. -/
theorem FetchStatus_short_counterexample :
    "+OK\n".toList ∉ ["firmware: 0.6.0\n".toList] ∧
      "+OK\r\n".toList ∉ ["firmware: 0.6.0\n".toList] ∧
      ["firmware: 0.6.0\n".toList].length < 13 ∧
      FetchStatus exampleEnv ["firmware: 0.6.0\n".toList] none =
        ({ Status.zero exampleEnv with Firmware := "0.6.0".toList }, none) := by
  decide

/-- C11 amended: `FetchStatus` checks neither the `+OK` line nor the number of
lines. An error of the command helper is returned as it is, with `Status{}`;
for lines returned without such an error, `FetchStatus` returns an error
exactly when some line is neither framing nor accepted by the line parser and
the decode table, and an error never comes with a partially built record. -/
theorem FetchStatus_error_iff {F : Type} (env : Env F) (lines : List Str) :
    (∀ e, FetchStatus env lines (some e) = (Status.zero env, some e)) ∧
      ((FetchStatus env lines none).2 ≠ none ↔
        specAssemble env lines (Status.zero env) = none) ∧
      ((FetchStatus env lines none).2 ≠ none →
        (FetchStatus env lines none).1 = Status.zero env) := by
  refine ⟨fun e => rfl, ?_, ?_⟩
  · cases hs : specAssemble env lines (Status.zero env) with
    | none =>
      have := loop_of_spec_none env lines (Status.zero env) none hs
      rw [FetchStatus_of_loop]
      cases he : (loop env { status := Status.zero env, err := none } lines).err with
      | none => exact absurd he this
      | some e => simp
    | some s1 =>
      rw [(FetchStatus_eq_iff_spec env lines s1).mpr hs]
      simp
  · rw [FetchStatus_of_loop]
    cases he : (loop env { status := Status.zero env, err := none } lines).err with
    | none => intro h; exact absurd rfl h
    | some e => intro _; rfl

/-- C11 amended, at the sample response followed by a line with an unknown key. -/
theorem FetchStatus_error_iff_witness :
    (FetchStatus exampleEnv (sampleWire ++ ["foo: bar\n".toList]) none).2 ≠ none ∧
      (FetchStatus exampleEnv (sampleWire ++ ["foo: bar\n".toList]) none).1 =
        Status.zero exampleEnv :=
  ⟨by decide,
    (FetchStatus_error_iff exampleEnv (sampleWire ++ ["foo: bar\n".toList])).2.2 (by decide)⟩

/-! ## The five integer keys -/

theorem Atoi_plus (digits : Str) (m : Nat) (hne : digits ≠ [])
    (hm : parseDigits digits 0 = some m) :
    Atoi ('+' :: digits) =
      if m ≥ 2 ^ 63 then (2 ^ 63 - 1, some (.numError "Atoi".toList ('+' :: digits) .rangeErr))
      else ((m : Int), none) := by
  have h1 : decide (('+' :: digits).head? = some '-') = false := rfl
  have h2 : (('+' :: digits).head? = some '-' ∨ ('+' :: digits).head? = some '+') :=
    Or.inr rfl
  unfold Atoi
  rw [if_pos h2, h1]
  simp only [List.tail_cons, if_neg hne, hm, Bool.false_eq_true, if_false]

theorem Atoi_minus (digits : Str) (m : Nat) (hne : digits ≠ [])
    (hm : parseDigits digits 0 = some m) :
    Atoi ('-' :: digits) =
      if m > 2 ^ 63 then (-(2 ^ 63), some (.numError "Atoi".toList ('-' :: digits) .rangeErr))
      else (-(m : Int), none) := by
  have h1 : decide (('-' :: digits).head? = some '-') = true := rfl
  have h2 : (('-' :: digits).head? = some '-' ∨ ('-' :: digits).head? = some '+') :=
    Or.inl rfl
  unfold Atoi
  rw [if_pos h2, h1]
  simp only [List.tail_cons, if_neg hne, hm, if_true]

/-- `strconv.Atoi` on an optional sign and digits that denote an `int`. -/
theorem Atoi_signed (sign digits : Str) (m : Nat) (n : Int)
    (hsign : sign = [] ∨ sign = ['+'] ∨ sign = ['-'])
    (hne : digits ≠ []) (hd : ∀ c ∈ digits, clsDigit c = true)
    (hm : parseDigits digits 0 = some m)
    (hn : n = if sign = ['-'] then -(m : Int) else (m : Int))
    (hrange : -(2 ^ 63) ≤ n ∧ n < 2 ^ 63) :
    Atoi (sign ++ digits) = (n, none) := by
  rcases hsign with hs | hs | hs <;> subst hs
  · have h1 : ¬ (([] : Str) = ['-']) := by decide
    rw [if_neg h1] at hn
    subst hn
    have hlt : ¬ (m ≥ 2 ^ 63) := by
      have := hrange.2
      intro hc
      have : (2 : Int) ^ 63 ≤ m := by exact_mod_cast hc
      omega
    rw [List.nil_append, Atoi_digits digits m hne hd hm, if_neg hlt]
  · have h1 : ¬ ((['+'] : Str) = ['-']) := by decide
    rw [if_neg h1] at hn
    subst hn
    have hlt : ¬ (m ≥ 2 ^ 63) := by
      have := hrange.2
      intro hc
      have : (2 : Int) ^ 63 ≤ m := by exact_mod_cast hc
      omega
    show Atoi ('+' :: digits) = _
    rw [Atoi_plus digits m hne hm, if_neg hlt]
  · rw [if_pos rfl] at hn
    subst hn
    have hlt : ¬ (m > 2 ^ 63) := by
      have := hrange.1
      intro hc
      have : (2 : Int) ^ 63 < m := by exact_mod_cast hc
      omega
    show Atoi ('-' :: digits) = _
    rw [Atoi_minus digits m hne hm, if_neg hlt]

theorem decodeField_mtu_ok {F : Type} (env : Env F) (st : State F) (value : Str) (n : Int)
    (hA : Atoi value = (n, none)) :
    decodeField env st "max pkt size".toList value =
      .next { st with status := { st.status with Mtu := n } } := by
  unfold decodeField
  rw [hA]
  rfl

theorem decodeField_bfb_ok {F : Type} (env : Env F) (st : State F) (value : Str) (n : Int)
    (hA : Atoi value = (n, none)) :
    decodeField env st "BFB".toList value =
      .next { st with status := { st.status with Bfb := n } } := by
  unfold decodeField
  rw [hA]
  rfl

theorem decodeField_rxBad_ok {F : Type} (env : Env F) (st : State F) (value : Str) (n : Int)
    (hA : Atoi value = (n, none)) :
    decodeField env st "rx bad".toList value =
      .next { st with status := { st.status with RxBad := n } } := by
  unfold decodeField
  rw [hA]
  rfl

theorem decodeField_rxGood_ok {F : Type} (env : Env F) (st : State F) (value : Str) (n : Int)
    (hA : Atoi value = (n, none)) :
    decodeField env st "rx good".toList value =
      .next { st with status := { st.status with RxGood := n } } := by
  unfold decodeField
  rw [hA]
  rfl

theorem decodeField_txGood_ok {F : Type} (env : Env F) (st : State F) (value : Str) (n : Int)
    (hA : Atoi value = (n, none)) :
    decodeField env st "tx good".toList value =
      .next { st with status := { st.status with TxGood := n } } := by
  unfold decodeField
  rw [hA]
  rfl

/-- C17: on a line for one of the five integer keys whose value is an optional
sign and decimal digits denoting an `int` `n`, the loop body sets the field
paired with the key to `n` (`max pkt size` to `Mtu`, `BFB` to `Bfb`, `rx bad`
to `RxBad`, `rx good` to `RxGood`, `tx good` to `TxGood`), raises no error and
leaves the other eight fields as they were. -/
theorem int_line {F : Type} (env : Env F) (st : State F) (l key sign digits : Str)
    (m : Nat) (n : Int) (hp : parseLine l = some (key, sign ++ digits))
    (hsign : sign = [] ∨ sign = ['+'] ∨ sign = ['-'])
    (hne : digits ≠ []) (hd : ∀ c ∈ digits, clsDigit c = true)
    (hm : parseDigits digits 0 = some m)
    (hn : n = if sign = ['-'] then -(m : Int) else (m : Int))
    (hrange : -(2 ^ 63) ≤ n ∧ n < 2 ^ 63) :
    (key = "max pkt size".toList →
        processLine env st l = .next { st with status := { st.status with Mtu := n } }) ∧
      (key = "BFB".toList →
        processLine env st l = .next { st with status := { st.status with Bfb := n } }) ∧
      (key = "rx bad".toList →
        processLine env st l = .next { st with status := { st.status with RxBad := n } }) ∧
      (key = "rx good".toList →
        processLine env st l = .next { st with status := { st.status with RxGood := n } }) ∧
      (key = "tx good".toList →
        processLine env st l = .next { st with status := { st.status with TxGood := n } }) := by
  have hA := Atoi_signed sign digits m n hsign hne hd hm hn hrange
  rw [processLine_parsed env st l key _ hp]
  refine ⟨?_, ?_, ?_, ?_, ?_⟩ <;> intro hk <;> subst hk
  · exact decodeField_mtu_ok env st _ n hA
  · exact decodeField_bfb_ok env st _ n hA
  · exact decodeField_rxBad_ok env st _ n hA
  · exact decodeField_rxGood_ok env st _ n hA
  · exact decodeField_txGood_ok env st _ n hA

/-- C17, at the line `rx good: -12` on a record that already has a firmware. -/
theorem int_line_witness :
    parseLine "rx good: -12\n".toList = some ("rx good".toList, ['-'] ++ "12".toList) ∧
      parseDigits "12".toList 0 = some 12 ∧
      processLine exampleEnv
          { status := { Status.zero exampleEnv with Firmware := "0.6.0".toList }, err := none }
          "rx good: -12\n".toList =
        .next { status := { Status.zero exampleEnv with
                  Firmware := "0.6.0".toList, RxGood := -12 }, err := none } :=
  ⟨by decide, by decide,
    (int_line exampleEnv
      { status := { Status.zero exampleEnv with Firmware := "0.6.0".toList }, err := none }
      "rx good: -12\n".toList "rx good".toList ['-'] "12".toList 12 (-12)
      (by decide) (by decide) (by decide) (by decide) (by decide) (by decide)
      (by decide)).2.2.2.1 rfl⟩

/-! ## LF against CRLF -/

theorem not_mem_of_append_eq {b : Str} (hb : '\r' ∉ b) (x : Str) (hx : '\r' ∈ x)
    (h : b ++ ['\n'] = x) : False := by
  rw [← h] at hx
  rcases List.mem_append.mp hx with h1 | h1
  · exact hb h1
  · simp at h1

theorem last_mem_of_append_eq {x : Char} {a p v : Str} (hv : v ≠ [])
    (h : a ++ [x] = p ++ v) : x ∈ v := by
  rcases List.eq_nil_or_concat v with h0 | ⟨v1, y, hy⟩
  · exact absurd h0 hv
  · subst hy
    have e : a ++ [x] = (p ++ v1) ++ [y] := by simpa using h
    have := (List.append_inj' e rfl).2
    simp only [List.cons.injEq, and_true] at this
    subst this
    simp

/-- In a line that ends in LF and holds no carriage return, the terminator of a
reading `key: value` is LF. -/
theorem IsSplit_lf {b key sp value term : Str} (hb : '\r' ∉ b)
    (h : IsSplit (b ++ ['\n']) key sp value term) : term = ['\n'] := by
  obtain ⟨hs, _, _, _, _, _, _, ht⟩ := h
  rcases ht with ht | ht
  · exact ht
  · exfalso
    subst ht
    exact not_mem_of_append_eq hb _ (by simp) hs

/-- The readings of the line with CRLF are those of the line with LF. -/
theorem IsSplit_crlf {b key sp value term : Str} :
    IsSplit (b ++ ['\r', '\n']) key sp value term ↔
      term = ['\r', '\n'] ∧ IsSplit (b ++ ['\n']) key sp value ['\n'] := by
  constructor
  · rintro ⟨hs, hk, hkp, hsp, hspp, hv, hvp, ht⟩
    rcases ht with ht | ht <;> subst ht
    · exfalso
      have e1 : (b ++ ['\r']) ++ ['\n'] = (key ++ ':' :: (sp ++ value)) ++ ['\n'] := by
        simpa using hs
      have e2 := (List.append_inj' e1 rfl).1
      have e3 : key ++ ':' :: (sp ++ value) = (key ++ ':' :: sp) ++ value := by simp
      rw [e3] at e2
      have hmem : '\r' ∈ value := last_mem_of_append_eq hv e2
      have := hvp _ hmem
      simp [clsNotCR] at this
    · refine ⟨rfl, ?_, hk, hkp, hsp, hspp, hv, hvp, Or.inl rfl⟩
      have e1 : b ++ ['\r', '\n'] = (key ++ ':' :: (sp ++ value)) ++ ['\r', '\n'] := by
        simpa using hs
      have e2 := (List.append_inj' e1 rfl).1
      rw [e2]; simp
  · rintro ⟨ht, hs, hk, hkp, hsp, hspp, hv, hvp, _⟩
    subst ht
    refine ⟨?_, hk, hkp, hsp, hspp, hv, hvp, Or.inr rfl⟩
    have e1 : b ++ ['\n'] = (key ++ ':' :: (sp ++ value)) ++ ['\n'] := by
      simpa using hs
    have e2 := (List.append_inj' e1 rfl).1
    rw [e2]; simp

/-- The line parser reads the same key and value off a line that ends in CRLF
and off the same line ending in LF, when the line holds no other carriage
return. -/
theorem parseLine_crlf (b : Str) (hb : '\r' ∉ b) :
    parseLine (b ++ ['\r', '\n']) = parseLine (b ++ ['\n']) := by
  apply Option.ext
  rintro ⟨key, value⟩
  simp only [Option.mem_def]
  rw [parseLine_eq_some, parseLine_eq_some]
  constructor
  · rintro ⟨sp, term, hsplit, hmax⟩
    obtain ⟨_, hlf⟩ := IsSplit_crlf.mp hsplit
    refine ⟨sp, ['\n'], hlf, ?_⟩
    intro k1 sp1 v1 t1 h1
    have ht1 := IsSplit_lf hb h1
    subst ht1
    exact hmax k1 sp1 v1 ['\r', '\n'] (IsSplit_crlf.mpr ⟨rfl, h1⟩)
  · rintro ⟨sp, term, hsplit, hmax⟩
    have ht := IsSplit_lf hb hsplit
    subst ht
    refine ⟨sp, ['\r', '\n'], IsSplit_crlf.mpr ⟨rfl, hsplit⟩, ?_⟩
    intro k1 sp1 v1 t1 h1
    exact hmax k1 sp1 v1 ['\n'] (IsSplit_crlf.mp h1).2

theorem framing_lf (b : Str) (hb : '\r' ∉ b) :
    b ++ ['\n'] ∈ framingLines ↔ (b = "+STATUS:".toList ∨ b = "+OK".toList ∨ b = []) := by
  have lf_eq : ∀ m : Str, b ++ ['\n'] = m ++ ['\n'] ↔ b = m :=
    fun m => List.append_left_inj ['\n']
  have lf_ne : ∀ m : Str, b ++ ['\n'] = m ++ ['\r', '\n'] ↔ False := by
    intro m
    refine ⟨fun h => ?_, False.elim⟩
    exact not_mem_of_append_eq hb _ (by simp) h
  have h1 : b ++ ['\n'] = "+STATUS:\n".toList ↔ b = "+STATUS:".toList := lf_eq "+STATUS:".toList
  have h2 : b ++ ['\n'] = "+STATUS:\r\n".toList ↔ False := lf_ne "+STATUS:".toList
  have h3 : b ++ ['\n'] = "+OK\n".toList ↔ b = "+OK".toList := lf_eq "+OK".toList
  have h4 : b ++ ['\n'] = "+OK\r\n".toList ↔ False := lf_ne "+OK".toList
  have h5 : b ++ ['\n'] = "\n".toList ↔ b = [] := lf_eq []
  have h6 : b ++ ['\n'] = "\r\n".toList ↔ False := lf_ne []
  simp only [framingLines, List.mem_cons, List.mem_singleton, List.not_mem_nil, or_false,
    h1, h2, h3, h4, h5, h6, false_or]

theorem framing_crlf (b : Str) :
    b ++ ['\r', '\n'] ∈ framingLines ↔ (b = "+STATUS:".toList ∨ b = "+OK".toList ∨ b = []) := by
  have crlf_eq : ∀ m : Str, b ++ ['\r', '\n'] = m ++ ['\r', '\n'] ↔ b = m :=
    fun m => List.append_left_inj ['\r', '\n']
  have crlf_ne : ∀ m : Str, '\r' ∉ m → (b ++ ['\r', '\n'] = m ++ ['\n'] ↔ False) := by
    intro m hm
    refine ⟨fun h => ?_, False.elim⟩
    have e : (b ++ ['\r']) ++ ['\n'] = m ++ ['\n'] := by simpa using h
    have e2 := (List.append_left_inj ['\n']).mp e
    apply hm
    rw [← e2]
    simp
  have h1 : b ++ ['\r', '\n'] = "+STATUS:\n".toList ↔ False :=
    crlf_ne "+STATUS:".toList (by decide)
  have h2 : b ++ ['\r', '\n'] = "+STATUS:\r\n".toList ↔ b = "+STATUS:".toList :=
    crlf_eq "+STATUS:".toList
  have h3 : b ++ ['\r', '\n'] = "+OK\n".toList ↔ False := crlf_ne "+OK".toList (by decide)
  have h4 : b ++ ['\r', '\n'] = "+OK\r\n".toList ↔ b = "+OK".toList := crlf_eq "+OK".toList
  have h5 : b ++ ['\r', '\n'] = "\n".toList ↔ False := crlf_ne [] (by decide)
  have h6 : b ++ ['\r', '\n'] = "\r\n".toList ↔ b = [] := crlf_eq []
  simp only [framingLines, List.mem_cons, List.mem_singleton, List.not_mem_nil, or_false,
    h1, h2, h3, h4, h5, h6, false_or]

/-- The assembler of the specification gives the same result on the lines ending
in CRLF and on the same lines ending in LF. -/
theorem specAssemble_crlf {F : Type} (env : Env F) (bodies : List Str)
    (h : ∀ b ∈ bodies, '\r' ∉ b) (s : Status F) :
    specAssemble env (bodies.map (withTerminator true)) s =
      specAssemble env (bodies.map (withTerminator false)) s := by
  induction bodies generalizing s with
  | nil => rfl
  | cons b bs ih =>
    have hb := h b (List.mem_cons_self _ _)
    have hbs : ∀ x ∈ bs, '\r' ∉ x := fun x hx => h x (List.mem_cons_of_mem _ hx)
    have e1 : withTerminator true b = b ++ ['\r', '\n'] := rfl
    have e2 : withTerminator false b = b ++ ['\n'] := rfl
    simp only [List.map_cons, specAssemble, e1, e2, parseLine_crlf b hb]
    by_cases hf : b ++ ['\n'] ∈ framingLines
    · have hf2 : b ++ ['\r', '\n'] ∈ framingLines :=
        (framing_crlf b).mpr ((framing_lf b hb).mp hf)
      rw [if_pos hf, if_pos hf2]
      exact ih hbs s
    · have hf2 : b ++ ['\r', '\n'] ∉ framingLines :=
        fun hc => hf ((framing_lf b hb).mpr ((framing_crlf b).mp hc))
      rw [if_neg hf, if_neg hf2]
      cases parseLine (b ++ ['\n']) with
      | none => rfl
      | some kv =>
        obtain ⟨key, value⟩ := kv
        simp only
        cases specDecode env key value s with
        | none => rfl
        | some s1 => simp only; exact ih hbs s1

theorem FetchStatus_of_spec_none {F : Type} (env : Env F) (lines : List Str)
    (h : specAssemble env lines (Status.zero env) = none) :
    ∃ e, FetchStatus env lines none = (Status.zero env, some e) := by
  have := loop_of_spec_none env lines (Status.zero env) none h
  rw [FetchStatus_of_loop]
  cases he : (loop env { status := Status.zero env, err := none } lines).err with
  | none => exact absurd he this
  | some e => exact ⟨e, rfl⟩

/-- C19: for lines that end in LF and hold no carriage return, replacing every
LF terminator by CRLF does not change whether `FetchStatus` succeeds, nor the
status it returns: no carriage return reaches a key or a value. -/
theorem FetchStatus_crlf {F : Type} (env : Env F) (bodies : List Str)
    (h : ∀ b ∈ bodies, '\r' ∉ b) :
    ((FetchStatus env (bodies.map (withTerminator true)) none).2 = none ↔
        (FetchStatus env (bodies.map (withTerminator false)) none).2 = none) ∧
      (FetchStatus env (bodies.map (withTerminator true)) none).1 =
        (FetchStatus env (bodies.map (withTerminator false)) none).1 := by
  have e := specAssemble_crlf env bodies h (Status.zero env)
  cases hs : specAssemble env (bodies.map (withTerminator false)) (Status.zero env) with
  | some st =>
    rw [hs] at e
    rw [(FetchStatus_eq_iff_spec env _ st).mpr hs, (FetchStatus_eq_iff_spec env _ st).mpr e]
    exact ⟨Iff.rfl, rfl⟩
  | none =>
    rw [hs] at e
    obtain ⟨e1, h1⟩ := FetchStatus_of_spec_none env _ hs
    obtain ⟨e2, h2⟩ := FetchStatus_of_spec_none env _ e
    rw [h1, h2]
    simp

/-- C19, at a response of four lines. -/
theorem FetchStatus_crlf_witness :
    (∀ b ∈ ["+STATUS:".toList, "firmware: 0.6.0".toList, "BFB: 0".toList, "+OK".toList],
        '\r' ∉ b) ∧
      FetchStatus exampleEnv
          ["+STATUS:\r\n".toList, "firmware: 0.6.0\r\n".toList, "BFB: 0\r\n".toList,
            "+OK\r\n".toList] none =
        ({ Status.zero exampleEnv with Firmware := "0.6.0".toList }, none) ∧
      (FetchStatus exampleEnv
          (["+STATUS:".toList, "firmware: 0.6.0".toList, "BFB: 0".toList, "+OK".toList].map
            (withTerminator true)) none).1 =
        (FetchStatus exampleEnv
          (["+STATUS:".toList, "firmware: 0.6.0".toList, "BFB: 0".toList, "+OK".toList].map
            (withTerminator false)) none).1 :=
  ⟨by decide, by decide,
    (FetchStatus_crlf exampleEnv
      ["+STATUS:".toList, "firmware: 0.6.0".toList, "BFB: 0".toList, "+OK".toList]
      (by decide)).2⟩

end Rf95
